import Mathlib

/-!
# LED effects of `blink_example_main.c`

A shallow embedding of the colour conversion `hsv_to_rgb` and of the three
effect generators (`loop_effect`, `knight_rider_effect`, `rainbow_effect`) of
`src/blink/main/blink_example_main.c`.

Conventions of the embedding:

* `float` arithmetic is embedded twice.  The definitions without suffix take it
  exactly, over `ℚ`.  The definitions with suffix `_f32` round the result of
  every operation to binary32, as the target does; a binary32 value is the
  rational number it denotes.  The conversion of a `float` to `uint8_t`
  truncates toward zero.
* `size_t` is the 32-bit unsigned word of the target: a `Nat` reduced modulo
  `2 ^ 32` after every operation.  `int` is an `Int` wrapped to 32 bits.
* The LED strip driver is an external component.  The effect code is embedded
  as the sequence of driver calls one frame makes, and a small model of the
  driver interprets that sequence on a pixel buffer.
-/

namespace Blink

/-! ## Constants and machine arithmetic -/

/-- The strip length, `#define NUM_LEDS 25`. -/
def NUM_LEDS : Nat := 25

/-- One more than the largest `size_t` of the 32-bit target. -/
def SIZE_MOD : Nat := 2 ^ 32

/-- Reduction of a natural number to a `size_t`. -/
def size_wrap (n : Nat) : Nat := n % SIZE_MOD

/-- Conversion of an `int` to `size_t`, as done by `led_index += direction`. -/
def size_of_int (d : Int) : Nat := (d % (SIZE_MOD : Int)).toNat

/-- Reduction of an integer to a 32-bit two's complement `int`. -/
def int_wrap (z : Int) : Int := (z + 2 ^ 31) % 2 ^ 32 - 2 ^ 31

/-! ## Exact versions of the `math.h` functions and of the float conversion -/

/-- Truncation toward zero of an exact value. -/
def truncQ (q : ℚ) : Int := if 0 ≤ q then ⌊q⌋ else ⌈q⌉

/-- The C function `fmodf`, exactly: the remainder has the sign of `x`. -/
def fmodf (x y : ℚ) : ℚ := x - y * (truncQ (x / y) : ℚ)

/-- The C function `fabsf`, exactly. -/
def fabsf (x : ℚ) : ℚ := if x < 0 then -x else x

/-- Conversion of a `float` value to `uint8_t`: the fractional part is
discarded; a value outside the range of the type is reduced modulo 256. -/
def to_uint8 (q : ℚ) : Nat := (truncQ q % 256).toNat

/-! ## Colour conversion -/

/-- An 8-bit-per-channel colour. -/
structure RGB where
  r : Nat
  g : Nat
  b : Nat
  deriving DecidableEq

/-- The comparison chain of `hsv_to_rgb` (lines 105-140): the triple
`(r1, g1, b1)` chosen for hue `h` from chroma `c` and intermediate `x`. -/
def hsv_sector (h c x : ℚ) : ℚ × ℚ × ℚ :=
  if h < 60 then (c, x, 0)
  else if h < 120 then (x, c, 0)
  else if h < 180 then (0, c, x)
  else if h < 240 then (0, x, c)
  else if h < 300 then (x, 0, c)
  else (c, 0, x)

/-- The three products `(r1 + m) * 255`, `(g1 + m) * 255`, `(b1 + m) * 255`
of `hsv_to_rgb` (lines 100-102 and the right-hand sides of lines 142-144),
before their conversion to `uint8_t`, in exact arithmetic. -/
def hsv_scaled (h s v : ℚ) : ℚ × ℚ × ℚ :=
  let c := v * s
  let x := c * (1 - fabsf (fmodf (h / 60) 2 - 1))
  let m := v - c
  let p := hsv_sector h c x
  ((p.1 + m) * 255, (p.2.1 + m) * 255, (p.2.2 + m) * 255)

/-- The function `hsv_to_rgb` of the source in exact arithmetic: the three
products are stored into `uint8_t` outputs. -/
def hsv_to_rgb (h s v : ℚ) : RGB :=
  let p := hsv_scaled h s v
  { r := to_uint8 p.1, g := to_uint8 p.2.1, b := to_uint8 p.2.2 }

/-! ## The reference decomposition of the specification -/

/-- The mathematical remainder `a mod b` of the specification, with a result
in `[0, b)` for positive `b`. -/
def spec_mod (a b : ℚ) : ℚ := a - b * (⌊a / b⌋ : ℚ)

/-- The permutation of `{c, x, 0}` the specification assigns to sector `k`. -/
def spec_sector_perm (k : ℤ) (c x : ℚ) : ℚ × ℚ × ℚ :=
  if k = 0 then (c, x, 0)
  else if k = 1 then (x, c, 0)
  else if k = 2 then (0, c, x)
  else if k = 3 then (0, x, c)
  else if k = 4 then (x, 0, c)
  else (c, 0, x)

/-- The HSV sector decomposition as the specification words it, with the final
quantisation of a channel left as the parameter `quant`:
`c = v * s`, `x = c * (1 - |((h/60) mod 2) - 1|)`, `m = v - c`, the sector is
`floor (h / 60)`, and a channel is `quant ((component + m) * 255)`. -/
def hsv_reference (quant : ℚ → ℤ) (h s v : ℚ) : ℤ × ℤ × ℤ :=
  let c := v * s
  let x := c * (1 - |spec_mod (h / 60) 2 - 1|)
  let m := v - c
  let p := spec_sector_perm ⌊h / 60⌋ c x
  (quant ((p.1 + m) * 255), quant ((p.2.1 + m) * 255), quant ((p.2.2 + m) * 255))

/-- The specification's conversion: channels are rounded to the nearest
integer. -/
def hsv_to_rgb_spec (h s v : ℚ) : ℤ × ℤ × ℤ := hsv_reference round h s v

/-- The three values `(component + m) * 255` of the specification's
decomposition, before a channel is quantised: `c = v * s`,
`x = c * (1 - |((h/60) mod 2) - 1|)`, `m = v - c`, sector `floor (h / 60)`. -/
def hsv_reference_products (h s v : ℚ) : ℚ × ℚ × ℚ :=
  let c := v * s
  let x := c * (1 - |spec_mod (h / 60) 2 - 1|)
  let m := v - c
  let p := spec_sector_perm ⌊h / 60⌋ c x
  ((p.1 + m) * 255, (p.2.1 + m) * 255, (p.2.2 + m) * 255)

/-- The channels of a colour as integers. -/
def RGB.toInts (p : RGB) : ℤ × ℤ × ℤ := ((p.r : ℤ), (p.g : ℤ), (p.b : ℤ))

/-! ## The LED strip driver -/

/-- Result codes of the driver calls. -/
inductive esp_err_t where
  | ESP_OK
  | ESP_ERR_INVALID_ARG
  deriving DecidableEq

/-- Modelled from the spec: the state of the external LED strip driver (the
`led_strip` component is not part of the sources).  `pixels` is the staged
pixel buffer, one cell per LED; `frames` lists the buffers transmitted so far,
the latest first. -/
structure led_strip_t where
  pixels : List RGB
  frames : List (List RGB)
  deriving DecidableEq

/-- The colour of a cell that is off. -/
def RGB.off : RGB := ⟨0, 0, 0⟩

/-- Modelled from the spec: the driver call `led_strip_clear`, missing from the
sources, sets every cell of the staged buffer to zero. -/
def led_strip_clear (strip : led_strip_t) : led_strip_t × esp_err_t :=
  ({ strip with pixels := List.replicate strip.pixels.length RGB.off }, esp_err_t.ESP_OK)

/-- Modelled from the spec: the driver call `led_strip_set_pixel`, missing from
the sources, stages the channel values of one cell; the index must be in
`[0, N)`, otherwise the call fails and the buffer is left as it was.  A cell
keeps eight bits of each channel. -/
def led_strip_set_pixel (strip : led_strip_t) (index red green blue : Nat) :
    led_strip_t × esp_err_t :=
  if index < strip.pixels.length then
    ({ strip with
        pixels := strip.pixels.set index ⟨red % 256, green % 256, blue % 256⟩ },
      esp_err_t.ESP_OK)
  else (strip, esp_err_t.ESP_ERR_INVALID_ARG)

/-- Modelled from the spec: the driver call `led_strip_refresh`, missing from
the sources, transmits the staged buffer. -/
def led_strip_refresh (strip : led_strip_t) : led_strip_t × esp_err_t :=
  ({ strip with frames := strip.pixels :: strip.frames }, esp_err_t.ESP_OK)

/-- A call an effect makes to the driver, with its arguments. -/
inductive DriverCall where
  | clear
  | set_pixel (index red green blue : Nat)
  | refresh
  deriving DecidableEq

/-- The driver executes one call. -/
def driver_exec (strip : led_strip_t) : DriverCall → led_strip_t × esp_err_t
  | DriverCall.clear => led_strip_clear strip
  | DriverCall.set_pixel index red green blue =>
      led_strip_set_pixel strip index red green blue
  | DriverCall.refresh => led_strip_refresh strip

/-- The driver executes a sequence of calls.  The effects discard the result
code of every call, so a failed call does not stop the sequence. -/
def driver_run (strip : led_strip_t) : List DriverCall → led_strip_t
  | [] => strip
  | call :: rest => driver_run (driver_exec strip call).1 rest

/-- The strip after `configure_led`: `max_leds = NUM_LEDS` cells, all cleared,
nothing transmitted. -/
def configured_strip : led_strip_t :=
  { pixels := List.replicate NUM_LEDS RGB.off, frames := [] }

/-! ## Machine subtraction -/

/-- Subtraction of `size_t` values, modulo `2 ^ 32`. -/
def size_sub (a b : Nat) : Nat := (a + (SIZE_MOD - b % SIZE_MOD)) % SIZE_MOD

/-! ## The loop chase effect -/

/-- Line 36: `prev_index = ((led_index + NUM_LEDS) - 1) % NUM_LEDS`. -/
def loop_effect_prev_index (led_index : Nat) : Nat :=
  size_sub (size_wrap (led_index + NUM_LEDS)) 1 % NUM_LEDS

/-- Line 37: `next_index = (led_index + 1) % NUM_LEDS`. -/
def loop_effect_next_index (led_index : Nat) : Nat :=
  size_wrap (led_index + 1) % NUM_LEDS

/-- The driver calls of one iteration of `loop_effect` (lines 36-48) for the
current value of the static `led_index`. -/
def loop_effect_calls (led_index : Nat) : List DriverCall :=
  let prev_index := loop_effect_prev_index led_index
  let next_index := loop_effect_next_index led_index
  [ DriverCall.clear,
    DriverCall.set_pixel prev_index 0 0 15,
    DriverCall.set_pixel next_index 0 0 15,
    DriverCall.set_pixel led_index 0 0 50,
    DriverCall.refresh ]

/-- The advance of `loop_effect` (line 50):
`led_index = (led_index + 1) % NUM_LEDS`. -/
def loop_effect_advance (led_index : Nat) : Nat :=
  size_wrap (led_index + 1) % NUM_LEDS

/-- The index of `loop_effect` after `k` iterations from `led_index`. -/
def loop_effect_run : Nat → Nat → Nat
  | 0, led_index => led_index
  | k + 1, led_index => loop_effect_advance (loop_effect_run k led_index)

/-- One iteration of `loop_effect` on the strip: the frame is staged and
transmitted. -/
def loop_effect_frame (strip : led_strip_t) (led_index : Nat) : led_strip_t :=
  driver_run strip (loop_effect_calls led_index)

/-! ## The sweep ("knight rider") effect -/

/-- The two static variables of `knight_rider_effect` (lines 57-58). -/
structure KnightState where
  led_index : Nat
  direction : Int
  deriving DecidableEq

/-- The initial values `led_index = 0`, `direction = 1`. -/
def knight_rider_init : KnightState := { led_index := 0, direction := 1 }

/-- The driver calls of one iteration of `knight_rider_effect` (lines 62-85)
for the current value of `led_index`. -/
def knight_rider_calls (led_index : Nat) : List DriverCall :=
  [DriverCall.clear, DriverCall.set_pixel led_index 50 0 0]
  ++ (if led_index > 0 then [DriverCall.set_pixel (size_sub led_index 1) 20 0 0] else [])
  ++ (if led_index > 1 then [DriverCall.set_pixel (size_sub led_index 2) 5 0 0] else [])
  ++ (if led_index < NUM_LEDS - 1 then
        [DriverCall.set_pixel (size_wrap (led_index + 1)) 20 0 0] else [])
  ++ (if led_index < NUM_LEDS - 2 then
        [DriverCall.set_pixel (size_wrap (led_index + 2)) 5 0 0] else [])
  ++ [DriverCall.refresh]

/-- The advance of `knight_rider_effect` (lines 87-91): `led_index += direction`
on the unsigned word, then the direction is negated when the new index is
`NUM_LEDS - 1` or `0`. -/
def knight_rider_advance (st : KnightState) : KnightState :=
  let led_index := size_wrap (st.led_index + size_of_int st.direction)
  if led_index = NUM_LEDS - 1 ∨ led_index = 0 then
    { led_index := led_index, direction := int_wrap (-st.direction) }
  else
    { led_index := led_index, direction := st.direction }

/-- The state of `knight_rider_effect` after `n` iterations from the initial
state. -/
def knight_rider_run : Nat → KnightState
  | 0 => knight_rider_init
  | n + 1 => knight_rider_advance (knight_rider_run n)

/-- One iteration of `knight_rider_effect` on the strip. -/
def knight_rider_frame (strip : led_strip_t) (led_index : Nat) : led_strip_t :=
  driver_run strip (knight_rider_calls led_index)

/-- The colour the specification gives pixel `j` in the sweep frame for index
`i`: full at `i`, medium at distance one, low at distance two, off elsewhere. -/
def knight_rider_pixel_spec (i j : Nat) : RGB :=
  if j = i then ⟨50, 0, 0⟩
  else if Int.natAbs ((j : ℤ) - (i : ℤ)) = 1 then ⟨20, 0, 0⟩
  else if Int.natAbs ((j : ℤ) - (i : ℤ)) = 2 then ⟨5, 0, 0⟩
  else RGB.off

/-- The colour the specification gives pixel `j` in the loop chase frame for
index `i`: the current index brighter, its two cyclic neighbours dim, off
elsewhere. -/
def loop_effect_pixel_spec (i j : Nat) : RGB :=
  if j = i then ⟨0, 0, 50⟩
  else if j = (i + NUM_LEDS - 1) % NUM_LEDS ∨ j = (i + 1) % NUM_LEDS then ⟨0, 0, 15⟩
  else RGB.off

/-- The invariant of the sweep: moving up the index is below the last pixel,
moving down it is above the first. -/
def KnightInv (st : KnightState) : Prop :=
  (st.direction = 1 ∧ st.led_index < NUM_LEDS - 1) ∨
  (st.direction = -1 ∧ 0 < st.led_index ∧ st.led_index ≤ NUM_LEDS - 1)

/-! ## The branches of the colour conversion -/

/-- The intermediate `x` of `hsv_to_rgb` (line 101) for hue `h` and chroma
`c`. -/
def hsv_x (h c : ℚ) : ℚ := c * (1 - fabsf (fmodf (h / 60) 2 - 1))

/-- The assignments to `(r1, g1, b1)` in the `k`-th branch of the comparison
chain of `hsv_to_rgb`: branch 0 is `h < 60` (lines 107-109), branch 1 is
`h < 120` (lines 113-115), and so on to branch 5, the final `else`
(lines 137-139). -/
def hsv_branch (k : Nat) (c x : ℚ) : ℚ × ℚ × ℚ :=
  match k with
  | 0 => (c, x, 0)
  | 1 => (x, c, 0)
  | 2 => (0, c, x)
  | 3 => (0, x, c)
  | 4 => (x, 0, c)
  | _ => (c, 0, x)

/-! ## The rainbow effect -/

/-- Line 154 in exact arithmetic:
`hue = fmodf((i * 360.0f / NUM_LEDS) + hue_offset, 360.0f)`. -/
def rainbow_hue (i : Nat) (hue_offset : ℚ) : ℚ :=
  fmodf ((i : ℚ) * 360 / (NUM_LEDS : ℚ) + hue_offset) 360

/-- Lines 156-158: the body of the pixel loop of `rainbow_effect` for pixel `i`:
the hue is converted with saturation `1.0` and value `0.3`, and the colour is
staged at index `i`. -/
def rainbow_pixel_call (hue_offset : ℚ) (i : Nat) : DriverCall :=
  let p := hsv_to_rgb (rainbow_hue i hue_offset) 1 (3 / 10)
  DriverCall.set_pixel i p.r p.g p.b

/-- The driver calls of `rainbow_effect` (lines 151-161): the pixel loop for
`i = 0 .. NUM_LEDS - 1`, then the refresh. -/
def rainbow_effect_calls (hue_offset : ℚ) : List DriverCall :=
  (List.range NUM_LEDS).map (rainbow_pixel_call hue_offset) ++ [DriverCall.refresh]

/-- The advance of `rainbow_effect` (line 164) in exact arithmetic:
`hue_offset = fmodf(hue_offset + 3.0f, 360.0f)`. -/
def rainbow_effect_advance (hue_offset : ℚ) : ℚ := fmodf (hue_offset + 3) 360

/-- The value of `hue_offset` after `k` advances from `hue_offset`. -/
def rainbow_effect_run : Nat → ℚ → ℚ
  | 0, hue_offset => hue_offset
  | k + 1, hue_offset => rainbow_effect_advance (rainbow_effect_run k hue_offset)

/-- The frame part of `rainbow_effect` on the strip. -/
def rainbow_effect_frame (strip : led_strip_t) (hue_offset : ℚ) : led_strip_t :=
  driver_run strip (rainbow_effect_calls hue_offset)

/-! ## Observations of a sequence of driver calls -/

/-- The indices passed to `led_strip_set_pixel` by a sequence of calls, in
order. -/
def set_pixel_indices : List DriverCall → List Nat
  | [] => []
  | DriverCall.set_pixel index _ _ _ :: rest => index :: set_pixel_indices rest
  | DriverCall.clear :: rest => set_pixel_indices rest
  | DriverCall.refresh :: rest => set_pixel_indices rest

/-- The result codes the driver returns for a sequence of calls, in order. -/
def driver_codes (strip : led_strip_t) : List DriverCall → List esp_err_t
  | [] => []
  | call :: rest =>
      (driver_exec strip call).2 :: driver_codes (driver_exec strip call).1 rest

/-! ## The effect loops and `app_main` -/

/-- What a run has come to when the loop iterations allowed to it are used up:
the function has returned, or it is still inside its `while (1)`. -/
inductive Outcome where
  | returned (strip : led_strip_t)
  | running (strip : led_strip_t)
  deriving DecidableEq

/-- The strip of an outcome. -/
def Outcome.strip : Outcome → led_strip_t
  | Outcome.returned strip => strip
  | Outcome.running strip => strip

/-- The function `loop_effect` (lines 30-53): `while (1)` around the frame and
the advance, with no exit from the loop.  `fuel` bounds the iterations
observed. -/
def loop_effect : Nat → Nat → led_strip_t → Outcome
  | 0, _, strip => Outcome.running strip
  | fuel + 1, led_index, strip =>
      loop_effect fuel (loop_effect_advance led_index) (loop_effect_frame strip led_index)

/-- The function `knight_rider_effect` (lines 55-95): `while (1)` around the
frame and the advance, with no exit from the loop. -/
def knight_rider_effect : Nat → KnightState → led_strip_t → Outcome
  | 0, _, strip => Outcome.running strip
  | fuel + 1, st, strip =>
      knight_rider_effect fuel (knight_rider_advance st)
        (knight_rider_frame strip st.led_index)

/-- The function `rainbow_effect` (lines 147-166): the pixel loop, the refresh
and the advance of the static `hue_offset`, once; the body is not inside a
loop, so the function returns.  The result is the new `hue_offset` and the
strip. -/
def rainbow_effect (hue_offset : ℚ) (strip : led_strip_t) : ℚ × led_strip_t :=
  (rainbow_effect_advance hue_offset, rainbow_effect_frame strip hue_offset)

/-- The `switch (mode)` of `app_main` (lines 225-236): each case calls its
effect and then breaks, after which `app_main` returns; the statics start at
`led_index = 0`, `direction = 1`, `hue_offset = 0`. -/
def app_main_switch (mode : Int) (fuel : Nat) (strip : led_strip_t) : Outcome :=
  if mode = 0 then loop_effect fuel 0 strip
  else if mode = 1 then knight_rider_effect fuel knight_rider_init strip
  else if mode = 2 then Outcome.returned (rainbow_effect 0 strip).2
  else Outcome.returned strip

/-- The function `app_main` (lines 215-237): `configure_led`, then the switch
with the built-in `mode = 2`. -/
def app_main (fuel : Nat) : Outcome := app_main_switch 2 fuel configured_strip

/-! ## Binary32 arithmetic

The definitions above take `float` arithmetic exactly.  The definitions below
round the result of every `float` operation to binary32 (IEEE 754 single
precision, round to nearest, ties to even), as the target does.  A binary32
value is represented by the rational number it denotes.  All values that occur
are far below the overflow threshold `2 ^ 128`, so overflow is not modelled. -/

/-- Rounding to the nearest integer, a tie going to the even neighbour. -/
def round_ties_even (y : ℚ) : ℤ :=
  if y - (⌊y⌋ : ℚ) < 1 / 2 then ⌊y⌋
  else if 1 / 2 < y - (⌊y⌋ : ℚ) then ⌊y⌋ + 1
  else if ⌊y⌋ % 2 = 0 then ⌊y⌋
  else ⌊y⌋ + 1

/-- The binary32 exponent of the binade of `q`: `floor (log2 |q|)`, and `-126`
in the subnormal range. -/
def f32_exponent (q : ℚ) : ℤ := max (Int.log 2 |q|) (-126)

/-- The spacing of the binary32 numbers in the binade of `q` (24 significant
bits). -/
def f32_ulp (q : ℚ) : ℚ := (2 : ℚ) ^ (f32_exponent q - 23)

/-- Rounding of an exact value to binary32: the nearest multiple of the spacing
of its binade, ties to even. -/
def f32_round (q : ℚ) : ℚ := (round_ties_even (q / f32_ulp q) : ℚ) * f32_ulp q

/-! ## Colour conversion in binary32 -/

/-- Line 100 in binary32: `c = v * s`. -/
def hsv_c_f32 (s v : ℚ) : ℚ := f32_round (v * s)

/-- The factor `1 - fabsf(fmodf(h / 60.0f, 2) - 1)` of line 101 in binary32: the
division and the two subtractions are rounded; `fmodf` and `fabsf` of binary32
arguments are exact. -/
def hsv_factor_f32 (h : ℚ) : ℚ :=
  f32_round (1 - fabsf (f32_round (fmodf (f32_round (h / 60)) 2 - 1)))

/-- Line 101 in binary32: `x = c * (1 - fabsf(fmodf(h / 60.0f, 2) - 1))`. -/
def hsv_x_f32 (h s v : ℚ) : ℚ := f32_round (hsv_c_f32 s v * hsv_factor_f32 h)

/-- Line 102 in binary32: `m = v - c`. -/
def hsv_m_f32 (s v : ℚ) : ℚ := f32_round (v - hsv_c_f32 s v)

/-- The right-hand side `(r1 + m) * 255` of lines 142-144 in binary32, for a
component `r1` and offset `m`: the sum is rounded, then the product. -/
def hsv_product_f32 (component m : ℚ) : ℚ := f32_round (f32_round (component + m) * 255)

/-- The three products of `hsv_to_rgb` in binary32, before their conversion to
`uint8_t`. -/
def hsv_scaled_f32 (h s v : ℚ) : ℚ × ℚ × ℚ :=
  let p := hsv_sector h (hsv_c_f32 s v) (hsv_x_f32 h s v)
  (hsv_product_f32 p.1 (hsv_m_f32 s v), hsv_product_f32 p.2.1 (hsv_m_f32 s v),
    hsv_product_f32 p.2.2 (hsv_m_f32 s v))

/-- The function `hsv_to_rgb` of the source in binary32. -/
def hsv_to_rgb_f32 (h s v : ℚ) : RGB :=
  let p := hsv_scaled_f32 h s v
  { r := to_uint8 p.1, g := to_uint8 p.2.1, b := to_uint8 p.2.2 }

/-! ## The rainbow hues in binary32 -/

/-- Line 154 in binary32: `hue = fmodf((i * 360.0f / NUM_LEDS) + hue_offset,
360.0f)`; the product, the quotient and the sum are rounded, `fmodf` is exact. -/
def rainbow_hue_f32 (i : Nat) (hue_offset : ℚ) : ℚ :=
  fmodf (f32_round (f32_round (f32_round ((i : ℚ) * 360) / (NUM_LEDS : ℚ)) + hue_offset)) 360

/-- Line 164 in binary32: `hue_offset = fmodf(hue_offset + 3.0f, 360.0f)`. -/
def rainbow_effect_advance_f32 (hue_offset : ℚ) : ℚ := fmodf (f32_round (hue_offset + 3)) 360

/-- The binary32 value of `hue_offset` after `k` advances from `hue_offset`. -/
def rainbow_effect_run_f32 : Nat → ℚ → ℚ
  | 0, hue_offset => hue_offset
  | k + 1, hue_offset => rainbow_effect_advance_f32 (rainbow_effect_run_f32 k hue_offset)

/-! # Theorems -/

set_option maxRecDepth 100000

/-! ## Facts about the exact `math.h` functions -/

theorem truncQ_of_nonneg {q : ℚ} (hq : 0 ≤ q) : truncQ q = ⌊q⌋ := by
  simp [truncQ, hq]

theorem fmodf_two_eq {x : ℚ} (hx : 0 ≤ x) : fmodf x 2 = x - 2 * (⌊x / 2⌋ : ℚ) := by
  have h2 : 0 ≤ x / 2 := by positivity
  simp [fmodf, truncQ_of_nonneg h2]

theorem fmodf_two_nonneg {x : ℚ} (hx : 0 ≤ x) : 0 ≤ fmodf x 2 := by
  rw [fmodf_two_eq hx]
  have h := Int.floor_le (x / 2)
  linarith

theorem fmodf_two_lt {x : ℚ} (hx : 0 ≤ x) : fmodf x 2 < 2 := by
  rw [fmodf_two_eq hx]
  have h := Int.lt_floor_add_one (x / 2)
  linarith

theorem fabsf_eq_abs (x : ℚ) : fabsf x = |x| := by
  unfold fabsf
  split_ifs with h
  · exact (abs_of_neg h).symm
  · exact (abs_of_nonneg (not_lt.mp h)).symm

/-- The factor `1 - |fmod(h/60, 2) - 1|` lies in `[0, 1]` for a hue `h ≥ 0`. -/
theorem hsv_factor_range {h : ℚ} (hh : 0 ≤ h) :
    0 ≤ 1 - fabsf (fmodf (h / 60) 2 - 1) ∧ 1 - fabsf (fmodf (h / 60) 2 - 1) ≤ 1 := by
  have h60 : 0 ≤ h / 60 := by positivity
  have h0 := fmodf_two_nonneg h60
  have h2 := fmodf_two_lt h60
  rw [fabsf_eq_abs]
  constructor
  · have : |fmodf (h / 60) 2 - 1| ≤ 1 := abs_le.mpr ⟨by linarith, by linarith⟩
    linarith
  · have := abs_nonneg (fmodf (h / 60) 2 - 1)
    linarith

/-- Whatever holds of `c`, `x` and `0` holds of each component the comparison
chain selects. -/
theorem hsv_sector_cases (P : ℚ → Prop) (h c x : ℚ) (hc : P c) (hx : P x) (h0 : P 0) :
    P (hsv_sector h c x).1 ∧ P (hsv_sector h c x).2.1 ∧ P (hsv_sector h c x).2.2 := by
  unfold hsv_sector
  split_ifs <;> exact ⟨by assumption, by assumption, by assumption⟩

/-- A value in `[0, 255]` is converted without wrapping. -/
theorem to_uint8_of_range {q : ℚ} (h0 : 0 ≤ q) (h1 : q ≤ 255) :
    (to_uint8 q : ℤ) = truncQ q ∧ to_uint8 q = ⌊q⌋.toNat ∧ to_uint8 q ≤ 255 := by
  have hf0 : 0 ≤ ⌊q⌋ := Int.floor_nonneg.mpr h0
  have hf1 : ⌊q⌋ ≤ 255 := by
    have : ⌊q⌋ ≤ ⌊(255 : ℚ)⌋ := Int.floor_mono h1
    simpa using this
  unfold to_uint8
  rw [truncQ_of_nonneg h0]
  omega

/-- Each product of `hsv_to_rgb` lies between `0` and `v * 255`. -/
theorem hsv_scaled_range {h s v : ℚ} (hh : 0 ≤ h) (hs0 : 0 ≤ s) (hs1 : s ≤ 1)
    (hv0 : 0 ≤ v) :
    (0 ≤ (hsv_scaled h s v).1 ∧ (hsv_scaled h s v).1 ≤ v * 255) ∧
    (0 ≤ (hsv_scaled h s v).2.1 ∧ (hsv_scaled h s v).2.1 ≤ v * 255) ∧
    (0 ≤ (hsv_scaled h s v).2.2 ∧ (hsv_scaled h s v).2.2 ≤ v * 255) := by
  obtain ⟨ht0, ht1⟩ := hsv_factor_range hh
  have hc0 : 0 ≤ v * s := mul_nonneg hv0 hs0
  have hc1 : v * s ≤ v := by nlinarith
  have hx0 : 0 ≤ v * s * (1 - fabsf (fmodf (h / 60) 2 - 1)) := mul_nonneg hc0 ht0
  have hx1 : v * s * (1 - fabsf (fmodf (h / 60) 2 - 1)) ≤ v * s := by nlinarith
  have key := hsv_sector_cases
    (fun p => 0 ≤ (p + (v - v * s)) * 255 ∧ (p + (v - v * s)) * 255 ≤ v * 255)
    h (v * s) (v * s * (1 - fabsf (fmodf (h / 60) 2 - 1)))
    ⟨by nlinarith, by nlinarith⟩ ⟨by nlinarith, by nlinarith⟩ ⟨by nlinarith, by nlinarith⟩
  exact key

/-! ## Properties of `hsv_to_rgb` -/

/-- C1: for a hue in `[0,360)` and saturation and value in `[0,1]`, each of the
three products `(r1+m)*255`, `(g1+m)*255`, `(b1+m)*255` lies in `[0,255]`; so
the conversion to `uint8_t` does not wrap (the stored channel is the
truncation of the product) and every output channel is at most 255. -/
theorem hsv_to_rgb_channels_in_range (h s v : ℚ) (hh0 : 0 ≤ h) (_hh1 : h < 360)
    (hs0 : 0 ≤ s) (hs1 : s ≤ 1) (hv0 : 0 ≤ v) (hv1 : v ≤ 1) :
    ((0 ≤ (hsv_scaled h s v).1 ∧ (hsv_scaled h s v).1 ≤ 255) ∧
     (0 ≤ (hsv_scaled h s v).2.1 ∧ (hsv_scaled h s v).2.1 ≤ 255) ∧
     (0 ≤ (hsv_scaled h s v).2.2 ∧ (hsv_scaled h s v).2.2 ≤ 255)) ∧
    (((hsv_to_rgb h s v).r : ℤ) = truncQ (hsv_scaled h s v).1 ∧
     ((hsv_to_rgb h s v).g : ℤ) = truncQ (hsv_scaled h s v).2.1 ∧
     ((hsv_to_rgb h s v).b : ℤ) = truncQ (hsv_scaled h s v).2.2) ∧
    ((hsv_to_rgb h s v).r ≤ 255 ∧ (hsv_to_rgb h s v).g ≤ 255 ∧
     (hsv_to_rgb h s v).b ≤ 255) := by
  obtain ⟨⟨r0, r1⟩, ⟨g0, g1⟩, ⟨b0, b1⟩⟩ := hsv_scaled_range hh0 hs0 hs1 hv0
  have hv255 : v * 255 ≤ 255 := by linarith
  have hr := to_uint8_of_range r0 (le_trans r1 hv255)
  have hg := to_uint8_of_range g0 (le_trans g1 hv255)
  have hb := to_uint8_of_range b0 (le_trans b1 hv255)
  exact ⟨⟨⟨r0, le_trans r1 hv255⟩, ⟨g0, le_trans g1 hv255⟩, ⟨b0, le_trans b1 hv255⟩⟩,
    ⟨hr.1, hg.1, hb.1⟩, ⟨hr.2.2, hg.2.2, hb.2.2⟩⟩

/-- Witness of C1 at `h = 200`, `s = 1/2`, `v = 3/10`. -/
theorem hsv_to_rgb_channels_in_range_witness :
    ((0 : ℚ) ≤ 200 ∧ (200 : ℚ) < 360 ∧ (0 : ℚ) ≤ 1 / 2 ∧ (1 / 2 : ℚ) ≤ 1 ∧
      (0 : ℚ) ≤ 3 / 10 ∧ (3 / 10 : ℚ) ≤ 1) ∧
    (hsv_to_rgb 200 (1 / 2) (3 / 10)).r ≤ 255 ∧
    (hsv_to_rgb 200 (1 / 2) (3 / 10)).g ≤ 255 ∧
    (hsv_to_rgb 200 (1 / 2) (3 / 10)).b ≤ 255 :=
  ⟨by norm_num,
   (hsv_to_rgb_channels_in_range 200 (1 / 2) (3 / 10) (by norm_num) (by norm_num)
      (by norm_num) (by norm_num) (by norm_num) (by norm_num)).2.2⟩

/-- C2: at full saturation and value, the six hues 0, 60, 120, 180, 240, 300
give red, yellow, green, cyan, blue and magenta. -/
theorem hsv_to_rgb_primary_secondary :
    hsv_to_rgb 0 1 1 = ⟨255, 0, 0⟩ ∧
    hsv_to_rgb 60 1 1 = ⟨255, 255, 0⟩ ∧
    hsv_to_rgb 120 1 1 = ⟨0, 255, 0⟩ ∧
    hsv_to_rgb 180 1 1 = ⟨0, 255, 255⟩ ∧
    hsv_to_rgb 240 1 1 = ⟨0, 0, 255⟩ ∧
    hsv_to_rgb 300 1 1 = ⟨255, 0, 255⟩ := by
  refine ⟨?_, ?_, ?_, ?_, ?_, ?_⟩ <;>
    norm_num [hsv_to_rgb, hsv_scaled, hsv_sector, fmodf, fabsf, to_uint8, truncQ] <;> rfl

/-- For a hue in `[0, 360)` the comparison chain selects the permutation of
sector `floor (h / 60)`. -/
theorem hsv_sector_eq_spec {h : ℚ} (hh0 : 0 ≤ h) (hh1 : h < 360) (c x : ℚ) :
    hsv_sector h c x = spec_sector_perm ⌊h / 60⌋ c x := by
  have fl : ∀ k : ℤ, (k : ℚ) * 60 ≤ h → h < ((k : ℚ) + 1) * 60 → ⌊h / 60⌋ = k := by
    intro k h1 h2
    rw [Int.floor_eq_iff]
    constructor
    · rw [le_div_iff₀ (by norm_num)]; exact h1
    · rw [div_lt_iff₀ (by norm_num)]; exact h2
  unfold hsv_sector
  split_ifs with h1 h2 h3 h4 h5
  · rw [fl 0 (by push_cast; linarith) (by push_cast; linarith)]; simp [spec_sector_perm]
  · rw [fl 1 (by push_cast; linarith) (by push_cast; linarith)]; simp [spec_sector_perm]
  · rw [fl 2 (by push_cast; linarith) (by push_cast; linarith)]; simp [spec_sector_perm]
  · rw [fl 3 (by push_cast; linarith) (by push_cast; linarith)]; simp [spec_sector_perm]
  · rw [fl 4 (by push_cast; linarith) (by push_cast; linarith)]; simp [spec_sector_perm]
  · rw [fl 5 (by push_cast; linarith) (by push_cast; linarith)]; simp [spec_sector_perm]

/-- With saturation zero the three products are all `v * 255`. -/
theorem hsv_scaled_sat_zero (h v : ℚ) :
    hsv_scaled h 0 v = (v * 255, v * 255, v * 255) := by
  unfold hsv_scaled hsv_sector
  split_ifs <;> simp

/-- C3 as stated fails: at `h = 100`, `s = 0`, `v = 17/20` the product is
`216.75`; the code returns `216` in each channel, the nearest integer is `217`,
and `216` is farther than one half from the product. -/
theorem hsv_to_rgb_achromatic_not_rounded :
    hsv_to_rgb 100 0 (17 / 20) = ⟨216, 216, 216⟩ ∧
    round ((17 / 20 : ℚ) * 255) = 217 ∧
    ¬ (|(17 / 20 : ℚ) * 255 - ((hsv_to_rgb 100 0 (17 / 20)).r : ℚ)| ≤ 1 / 2) ∧
    ¬ (((hsv_to_rgb 100 0 (17 / 20)).r : ℤ) = round ((17 / 20 : ℚ) * 255)) := by
  have e : hsv_to_rgb 100 0 (17 / 20) = ⟨216, 216, 216⟩ := by
    norm_num [hsv_to_rgb, hsv_scaled, hsv_sector, fmodf, fabsf, to_uint8, truncQ]
    rfl
  have r : round ((17 / 20 : ℚ) * 255) = 217 := by
    rw [round_eq, Int.floor_eq_iff]; norm_num
  refine ⟨e, r, ?_, ?_⟩
  · rw [e]; norm_num [abs_of_pos]
  · rw [e, r]; norm_num

/-- C3, amended: with saturation zero, for every value in `[0,1]` and every hue
in `[0,360)`, the three channels are equal, each the truncation (floor) of
`v * 255`, whatever the hue. -/
theorem hsv_to_rgb_achromatic (h v : ℚ) (_hh0 : 0 ≤ h) (_hh1 : h < 360)
    (hv0 : 0 ≤ v) (hv1 : v ≤ 1) :
    hsv_to_rgb h 0 v = ⟨⌊v * 255⌋.toNat, ⌊v * 255⌋.toNat, ⌊v * 255⌋.toNat⟩ := by
  have hq := (to_uint8_of_range (q := v * 255) (by linarith) (by linarith)).2.1
  simp only [hsv_to_rgb, hsv_scaled_sat_zero, hq]

/-- Witness of the amended C3 at `h = 100`, `v = 17/20`. -/
theorem hsv_to_rgb_achromatic_witness :
    ((0 : ℚ) ≤ 100 ∧ (100 : ℚ) < 360 ∧ (0 : ℚ) ≤ 17 / 20 ∧ (17 / 20 : ℚ) ≤ 1) ∧
    hsv_to_rgb 100 0 (17 / 20) =
      ⟨⌊(17 / 20 : ℚ) * 255⌋.toNat, ⌊(17 / 20 : ℚ) * 255⌋.toNat,
        ⌊(17 / 20 : ℚ) * 255⌋.toNat⟩ :=
  ⟨by norm_num,
   hsv_to_rgb_achromatic 100 (17 / 20) (by norm_num) (by norm_num) (by norm_num)
     (by norm_num)⟩

/-! ## The sweep effect: state machine -/

theorem knight_rider_init_inv : KnightInv knight_rider_init := by
  left
  simp [knight_rider_init, NUM_LEDS]

theorem knight_rider_advance_up {i : Nat} (hi : i < 24) :
    knight_rider_advance ⟨i, 1⟩ = ⟨i + 1, if i + 1 = 24 then -1 else 1⟩ := by
  have w : size_wrap (i + size_of_int 1) = i + 1 := by
    simp only [size_wrap, size_of_int, SIZE_MOD]; omega
  by_cases h24 : i + 1 = 24
  · simp [knight_rider_advance, w, NUM_LEDS, h24, int_wrap]
  · simp [knight_rider_advance, w, NUM_LEDS, h24]

theorem knight_rider_advance_down {i : Nat} (h0 : 0 < i) (h1 : i ≤ 24) :
    knight_rider_advance ⟨i, -1⟩ = ⟨i - 1, if i - 1 = 0 then 1 else -1⟩ := by
  have w : size_wrap (i + size_of_int (-1)) = i - 1 := by
    simp only [size_wrap, size_of_int, SIZE_MOD]; omega
  by_cases hz : i - 1 = 0
  · simp [knight_rider_advance, w, NUM_LEDS, hz, int_wrap]
  · have h24 : ¬ (i - 1 = 24) := by omega
    simp [knight_rider_advance, w, NUM_LEDS, hz, h24]

/-- One advance from a state of the invariant: the invariant is kept, the new
index is the exact sum `led_index + direction`, and the direction is negated
exactly when that sum is `0` or `24`. -/
theorem knight_rider_advance_spec (st : KnightState) (h : KnightInv st) :
    KnightInv (knight_rider_advance st) ∧
    ((knight_rider_advance st).led_index : ℤ) = (st.led_index : ℤ) + st.direction ∧
    (((st.led_index : ℤ) + st.direction = 0 ∨ (st.led_index : ℤ) + st.direction = 24) →
      (knight_rider_advance st).direction = -st.direction) ∧
    (¬ ((st.led_index : ℤ) + st.direction = 0 ∨ (st.led_index : ℤ) + st.direction = 24) →
      (knight_rider_advance st).direction = st.direction) := by
  obtain ⟨i, d⟩ := st
  simp only [KnightInv, NUM_LEDS] at h
  rcases h with ⟨hd, hi⟩ | ⟨hd, h0, h1⟩
  · subst hd
    rw [knight_rider_advance_up (by omega)]
    simp only [KnightInv, NUM_LEDS]
    by_cases h24 : i + 1 = 24
    · rw [if_pos h24]
      refine ⟨Or.inr ⟨rfl, ?_, ?_⟩, ?_, ?_, ?_⟩
      · omega
      · omega
      · push_cast; ring
      · intro _; rfl
      · intro hn; exact absurd (Or.inr (by omega)) hn
    · rw [if_neg h24]
      refine ⟨Or.inl ⟨rfl, ?_⟩, ?_, ?_, ?_⟩
      · omega
      · push_cast; ring
      · intro hn; exfalso; omega
      · intro _; rfl
  · subst hd
    rw [knight_rider_advance_down h0 (by omega)]
    simp only [KnightInv, NUM_LEDS]
    by_cases hz : i - 1 = 0
    · rw [if_pos hz]
      refine ⟨Or.inl ⟨rfl, ?_⟩, ?_, ?_, ?_⟩
      · omega
      · show ((i - 1 : ℕ) : ℤ) = (i : ℤ) + -1
        omega
      · intro _; simp
      · intro hn; exact absurd (Or.inl (by omega)) hn
    · rw [if_neg hz]
      refine ⟨Or.inr ⟨rfl, ?_, ?_⟩, ?_, ?_, ?_⟩
      · omega
      · omega
      · show ((i - 1 : ℕ) : ℤ) = (i : ℤ) + -1
        omega
      · intro hn; exfalso; omega
      · intro _; rfl

theorem knight_rider_run_inv (n : Nat) : KnightInv (knight_rider_run n) := by
  induction n with
  | zero => exact knight_rider_init_inv
  | succ n ih => exact (knight_rider_advance_spec _ ih).1

/-- C5: every state the sweep reaches from `led_index = 0`, `direction = +1`
has its index in `[0, 25)` and its direction `+1` or `-1`; and each advance adds
the direction to the index exactly, without wrapping the unsigned word. -/
theorem knight_rider_reachable_in_range (n : Nat) :
    (knight_rider_run n).led_index < NUM_LEDS ∧
    ((knight_rider_run n).direction = 1 ∨ (knight_rider_run n).direction = -1) ∧
    ((knight_rider_run (n + 1)).led_index : ℤ) =
      ((knight_rider_run n).led_index : ℤ) + (knight_rider_run n).direction := by
  have hinv := knight_rider_run_inv n
  refine ⟨?_, ?_, (knight_rider_advance_spec _ hinv).2.1⟩
  · simp only [KnightInv, NUM_LEDS] at hinv ⊢; omega
  · rcases hinv with ⟨hd, _⟩ | ⟨hd, _⟩
    · exact Or.inl hd
    · exact Or.inr hd

/-- C6: from `led_index = 0`, `direction = +1` the sweep is back in that state
after exactly `2 * (NUM_LEDS - 1) = 48` advances, and after no smaller positive
number of advances. -/
theorem knight_rider_period :
    2 * (NUM_LEDS - 1) = 48 ∧
    knight_rider_run 48 = knight_rider_init ∧
    ∀ k, 0 < k → k < 48 → knight_rider_run k ≠ knight_rider_init := by
  refine ⟨rfl, by decide, ?_⟩
  intro k h0 h48
  interval_cases k <;> decide

/-- Witness of C6: after one advance the state is not the initial one. -/
theorem knight_rider_period_witness :
    knight_rider_run 48 = knight_rider_init ∧ knight_rider_run 1 ≠ knight_rider_init :=
  ⟨knight_rider_period.2.1, knight_rider_period.2.2 1 (by decide) (by decide)⟩

/-- C7: in every reachable state of the sweep, one advance negates the
direction if and only if the updated index `led_index + direction` is `0` or
`NUM_LEDS - 1 = 24`; in every other case the direction is unchanged. -/
theorem knight_rider_flip_iff (n : Nat) :
    ((knight_rider_advance (knight_rider_run n)).direction =
        -(knight_rider_run n).direction ↔
      (((knight_rider_run n).led_index : ℤ) + (knight_rider_run n).direction = 0 ∨
       ((knight_rider_run n).led_index : ℤ) + (knight_rider_run n).direction = 24)) ∧
    (¬ (((knight_rider_run n).led_index : ℤ) + (knight_rider_run n).direction = 0 ∨
        ((knight_rider_run n).led_index : ℤ) + (knight_rider_run n).direction = 24) →
      (knight_rider_advance (knight_rider_run n)).direction =
        (knight_rider_run n).direction) := by
  have hinv := knight_rider_run_inv n
  obtain ⟨_, _, hflip, hkeep⟩ := knight_rider_advance_spec _ hinv
  have hd : (knight_rider_run n).direction = 1 ∨ (knight_rider_run n).direction = -1 := by
    rcases hinv with ⟨hd, _⟩ | ⟨hd, _⟩
    · exact Or.inl hd
    · exact Or.inr hd
  refine ⟨⟨?_, hflip⟩, hkeep⟩
  intro hneg
  by_contra hcon
  have := hkeep hcon
  omega

/-- Witness of C7: the 23rd state is `(23, +1)`, the updated index is `24`, and
the advance negates the direction; the first state `(0, +1)` keeps it. -/
theorem knight_rider_flip_iff_witness :
    (knight_rider_advance (knight_rider_run 23)).direction =
        -(knight_rider_run 23).direction ∧
    (knight_rider_advance (knight_rider_run 0)).direction =
        (knight_rider_run 0).direction :=
  ⟨(knight_rider_flip_iff 23).1.2 (Or.inr (by decide)),
   (knight_rider_flip_iff 0).2 (by decide)⟩

/-! ## The driver: frames already transmitted do not influence a run -/

theorem driver_run_frames (calls : List DriverCall) (pixels : List RGB)
    (sent older : List (List RGB)) :
    driver_run ⟨pixels, sent ++ older⟩ calls =
      ⟨(driver_run ⟨pixels, sent⟩ calls).pixels,
       (driver_run ⟨pixels, sent⟩ calls).frames ++ older⟩ := by
  induction calls generalizing pixels sent with
  | nil => rfl
  | cons call rest ih =>
    cases call with
    | clear => exact ih _ _
    | set_pixel index red green blue =>
      simp only [driver_run, driver_exec, led_strip_set_pixel]
      split_ifs
      · exact ih _ _
      · exact ih _ _
    | refresh => exact ih pixels (pixels :: sent)

/-- A run that starts by clearing a strip of `NUM_LEDS` cells is the same run
on the freshly configured strip, followed by the frames sent before. -/
theorem driver_run_clear_first (strip : led_strip_t) (hlen : strip.pixels.length = NUM_LEDS)
    (rest : List DriverCall) :
    driver_run strip (DriverCall.clear :: rest) =
      ⟨(driver_run configured_strip (DriverCall.clear :: rest)).pixels,
       (driver_run configured_strip (DriverCall.clear :: rest)).frames ++ strip.frames⟩ := by
  obtain ⟨pixels, frames⟩ := strip
  simp only at hlen
  have h1 : driver_run ⟨pixels, frames⟩ (DriverCall.clear :: rest) =
      driver_run ⟨List.replicate NUM_LEDS RGB.off, [] ++ frames⟩ rest := by
    simp [driver_run, driver_exec, led_strip_clear, hlen]
  have h2 : driver_run configured_strip (DriverCall.clear :: rest) =
      driver_run ⟨List.replicate NUM_LEDS RGB.off, []⟩ rest := by
    simp [driver_run, driver_exec, led_strip_clear, configured_strip]
  rw [h1, h2, driver_run_frames]

/-! ## The sweep effect: frames -/

theorem knight_rider_frame_configured :
    ∀ i, i < 25 → knight_rider_frame configured_strip i =
      ⟨(List.range NUM_LEDS).map (knight_rider_pixel_spec i),
       [(List.range NUM_LEDS).map (knight_rider_pixel_spec i)]⟩ := by
  decide

theorem knight_rider_frame_eq (strip : led_strip_t) (hlen : strip.pixels.length = NUM_LEDS)
    (i : Nat) (hi : i < NUM_LEDS) :
    knight_rider_frame strip i =
      ⟨(List.range NUM_LEDS).map (knight_rider_pixel_spec i),
       (List.range NUM_LEDS).map (knight_rider_pixel_spec i) :: strip.frames⟩ := by
  have hc := knight_rider_frame_configured i hi
  have hs : knight_rider_frame strip i = _ :=
    driver_run_clear_first strip hlen _
  have hc' : driver_run configured_strip (DriverCall.clear :: _) = _ := hc
  rw [hs, hc']
  rfl

/-- C8: for every index `i` in `[0,25)`, one iteration of the sweep transmits
exactly one frame, in which pixel `j` is `(50,0,0)` if `j = i`, `(20,0,0)` if
`|j - i| = 1`, `(5,0,0)` if `|j - i| = 2` and off otherwise, for every `j` in
`[0,25)`; neighbours outside the strip are skipped.  For `i = 0` the frame
lights pixel 0 at 50, pixel 1 at 20, pixel 2 at 5 and nothing else, and the
state `(0, +1)` advances to index 1. -/
theorem knight_rider_frame_pixels (strip : led_strip_t)
    (hlen : strip.pixels.length = NUM_LEDS) (i : Nat) (hi : i < NUM_LEDS) :
    (knight_rider_frame strip i).frames =
      (knight_rider_frame strip i).pixels :: strip.frames ∧
    (knight_rider_frame strip i).pixels.length = NUM_LEDS ∧
    (∀ j, j < NUM_LEDS →
      (knight_rider_frame strip i).pixels[j]? =
        some (if j = i then ⟨50, 0, 0⟩
              else if Int.natAbs ((j : ℤ) - (i : ℤ)) = 1 then ⟨20, 0, 0⟩
              else if Int.natAbs ((j : ℤ) - (i : ℤ)) = 2 then ⟨5, 0, 0⟩
              else ⟨0, 0, 0⟩)) ∧
    (knight_rider_frame strip 0).pixels =
      [⟨50, 0, 0⟩, ⟨20, 0, 0⟩, ⟨5, 0, 0⟩] ++ List.replicate 22 RGB.off ∧
    knight_rider_advance knight_rider_init = ⟨1, 1⟩ := by
  rw [knight_rider_frame_eq strip hlen i hi,
    knight_rider_frame_eq strip hlen 0 (by decide)]
  refine ⟨rfl, by simp, ?_, ?_, by decide⟩
  · intro j hj
    simp only [List.getElem?_map, List.getElem?_range hj, Option.map_some']
    simp [knight_rider_pixel_spec, RGB.off]
  · show (List.range NUM_LEDS).map (knight_rider_pixel_spec 0) = _
    decide

/-- Witness of C8 on the freshly configured strip, at `i = 24` and `j = 22`. -/
theorem knight_rider_frame_pixels_witness :
    configured_strip.pixels.length = NUM_LEDS ∧ 24 < NUM_LEDS ∧
    (knight_rider_frame configured_strip 24).pixels[22]? = some ⟨5, 0, 0⟩ :=
  ⟨by decide, by decide,
   (knight_rider_frame_pixels configured_strip (by decide) 24 (by decide)).2.2.1 22
     (by decide)⟩

/-! ## The loop chase effect -/

theorem loop_effect_advance_eq {i : Nat} (hi : i < NUM_LEDS) :
    loop_effect_advance i = (i + 1) % NUM_LEDS := by
  simp only [loop_effect_advance, size_wrap, SIZE_MOD, NUM_LEDS] at *
  omega

theorem loop_effect_run_eq (k : Nat) {i : Nat} (hi : i < NUM_LEDS) :
    loop_effect_run k i = (i + k) % NUM_LEDS := by
  induction k with
  | zero =>
    simp only [loop_effect_run, NUM_LEDS] at *
    omega
  | succ k ih =>
    have hlt : (i + k) % NUM_LEDS < NUM_LEDS := Nat.mod_lt _ (by decide)
    rw [loop_effect_run, ih, loop_effect_advance_eq hlt]
    simp only [NUM_LEDS]
    omega

/-- C9: in the loop chase, from every index `i` in `[0,25)` the advance
`i := (i + 1) mod 25` keeps the index in `[0,25)` (after any number of advances),
after exactly `NUM_LEDS = 25` advances the index is `i` again, and after `k`
advances with `0 < k < 25` it is not. -/
theorem loop_effect_period (i : Nat) (hi : i < NUM_LEDS) :
    loop_effect_advance i = (i + 1) % 25 ∧
    (∀ k, loop_effect_run k i < NUM_LEDS) ∧
    loop_effect_run NUM_LEDS i = i ∧
    (∀ k, 0 < k → k < NUM_LEDS → loop_effect_run k i ≠ i) := by
  refine ⟨loop_effect_advance_eq hi, ?_, ?_, ?_⟩
  · intro k
    rw [loop_effect_run_eq k hi]
    exact Nat.mod_lt _ (by decide)
  · rw [loop_effect_run_eq _ hi]
    simp only [NUM_LEDS] at *
    omega
  · intro k h0 hk
    rw [loop_effect_run_eq k hi]
    simp only [NUM_LEDS] at *
    omega

/-- Witness of C9 from index 24: one advance wraps to 0, which is not 24. -/
theorem loop_effect_period_witness :
    24 < NUM_LEDS ∧ loop_effect_run NUM_LEDS 24 = 24 ∧ loop_effect_run 1 24 ≠ 24 :=
  ⟨by decide, (loop_effect_period 24 (by decide)).2.2.1,
   (loop_effect_period 24 (by decide)).2.2.2 1 (by decide) (by decide)⟩

theorem loop_effect_frame_configured :
    ∀ i, i < 25 → loop_effect_frame configured_strip i =
      ⟨(List.range NUM_LEDS).map (loop_effect_pixel_spec i),
       [(List.range NUM_LEDS).map (loop_effect_pixel_spec i)]⟩ := by
  decide

theorem loop_effect_frame_eq (strip : led_strip_t) (hlen : strip.pixels.length = NUM_LEDS)
    (i : Nat) (hi : i < NUM_LEDS) :
    loop_effect_frame strip i =
      ⟨(List.range NUM_LEDS).map (loop_effect_pixel_spec i),
       (List.range NUM_LEDS).map (loop_effect_pixel_spec i) :: strip.frames⟩ := by
  have hc := loop_effect_frame_configured i hi
  have hs : loop_effect_frame strip i = _ :=
    driver_run_clear_first strip hlen _
  have hc' : driver_run configured_strip (DriverCall.clear :: _) = _ := hc
  rw [hs, hc']
  rfl

/-- C10: for every index `i` in `[0,25)`, one iteration of the loop chase
transmits exactly one frame, in which pixel `i` is `(0,0,50)`, pixels
`(i-1) mod 25` and `(i+1) mod 25` are `(0,0,15)` and every other pixel is off;
the previous, next and current indices the code computes are `(i-1) mod 25`,
`(i+1) mod 25` and `i`, pairwise distinct, with previous `24` for `i = 0` and
next `0` for `i = 24`. -/
theorem loop_effect_frame_pixels (strip : led_strip_t)
    (hlen : strip.pixels.length = NUM_LEDS) (i : Nat) (hi : i < NUM_LEDS) :
    (loop_effect_frame strip i).frames =
      (loop_effect_frame strip i).pixels :: strip.frames ∧
    (loop_effect_frame strip i).pixels.length = NUM_LEDS ∧
    (∀ j, j < NUM_LEDS →
      (loop_effect_frame strip i).pixels[j]? =
        some (if j = i then ⟨0, 0, 50⟩
              else if j = (i + 24) % 25 ∨ j = (i + 1) % 25 then ⟨0, 0, 15⟩
              else ⟨0, 0, 0⟩)) ∧
    (loop_effect_prev_index i = (i + 24) % 25 ∧
     loop_effect_next_index i = (i + 1) % 25) ∧
    (loop_effect_prev_index i ≠ loop_effect_next_index i ∧
     loop_effect_prev_index i ≠ i ∧ loop_effect_next_index i ≠ i) ∧
    loop_effect_prev_index 0 = 24 ∧ loop_effect_next_index 24 = 0 := by
  have hp : loop_effect_prev_index i = (i + 24) % 25 := by
    simp only [loop_effect_prev_index, size_sub, size_wrap, SIZE_MOD, NUM_LEDS] at *
    omega
  have hn : loop_effect_next_index i = (i + 1) % 25 := by
    simp only [loop_effect_next_index, size_wrap, SIZE_MOD, NUM_LEDS] at *
    omega
  rw [loop_effect_frame_eq strip hlen i hi]
  refine ⟨rfl, by simp, ?_, ⟨hp, hn⟩, ?_, by decide, by decide⟩
  · intro j hj
    simp only [List.getElem?_map, List.getElem?_range hj, Option.map_some']
    simp [loop_effect_pixel_spec, NUM_LEDS, RGB.off]
  · rw [hp, hn]
    simp only [NUM_LEDS] at hi
    omega

/-- Witness of C10 on the freshly configured strip, at `i = 0`: pixel 24, the
cyclic predecessor, is dim. -/
theorem loop_effect_frame_pixels_witness :
    configured_strip.pixels.length = NUM_LEDS ∧ 0 < NUM_LEDS ∧
    (loop_effect_frame configured_strip 0).pixels[24]? = some ⟨0, 0, 15⟩ :=
  ⟨by decide, by decide,
   (loop_effect_frame_pixels configured_strip (by decide) 0 (by decide)).2.2.1 24
     (by decide)⟩

/-! ## Sectors of the colour conversion -/

theorem floor_div_sixty {h : ℚ} (k : ℤ) (h1 : (k : ℚ) * 60 ≤ h) (h2 : h < ((k : ℚ) + 1) * 60) :
    ⌊h / 60⌋ = k := by
  rw [Int.floor_eq_iff]
  constructor
  · rw [le_div_iff₀ (by norm_num)]; exact h1
  · rw [div_lt_iff₀ (by norm_num)]; exact h2

/-- C17: for every hue in `[0,360)` the comparison chain of `hsv_to_rgb` selects
the permutation of `{c, x, 0}` of sector `k = floor(h/60)` (sector 0: `(c,x,0)`;
1: `(x,c,0)`; 2: `(0,c,x)`; 3: `(0,x,c)`; 4: `(x,0,c)`; 5: `(c,0,x)`); a hue on
a boundary `60*k`, `k = 1..5`, gets the permutation of the higher sector `k`. -/
theorem hsv_sector_selects_floor (h c x : ℚ) (hh0 : 0 ≤ h) (hh1 : h < 360) :
    hsv_sector h c x = spec_sector_perm ⌊h / 60⌋ c x ∧
    ((⌊h / 60⌋ = 0 ∧ hsv_sector h c x = (c, x, 0)) ∨
     (⌊h / 60⌋ = 1 ∧ hsv_sector h c x = (x, c, 0)) ∨
     (⌊h / 60⌋ = 2 ∧ hsv_sector h c x = (0, c, x)) ∨
     (⌊h / 60⌋ = 3 ∧ hsv_sector h c x = (0, x, c)) ∨
     (⌊h / 60⌋ = 4 ∧ hsv_sector h c x = (x, 0, c)) ∨
     (⌊h / 60⌋ = 5 ∧ hsv_sector h c x = (c, 0, x))) ∧
    (hsv_sector 60 c x = (x, c, 0) ∧ hsv_sector 120 c x = (0, c, x) ∧
     hsv_sector 180 c x = (0, x, c) ∧ hsv_sector 240 c x = (x, 0, c) ∧
     hsv_sector 300 c x = (c, 0, x)) := by
  refine ⟨hsv_sector_eq_spec hh0 hh1 c x, ?_, ?_⟩
  · unfold hsv_sector
    split_ifs with h1 h2 h3 h4 h5
    · exact Or.inl ⟨floor_div_sixty 0 (by push_cast; linarith) (by push_cast; linarith), rfl⟩
    · exact Or.inr (Or.inl
        ⟨floor_div_sixty 1 (by push_cast; linarith) (by push_cast; linarith), rfl⟩)
    · exact Or.inr (Or.inr (Or.inl
        ⟨floor_div_sixty 2 (by push_cast; linarith) (by push_cast; linarith), rfl⟩))
    · exact Or.inr (Or.inr (Or.inr (Or.inl
        ⟨floor_div_sixty 3 (by push_cast; linarith) (by push_cast; linarith), rfl⟩)))
    · exact Or.inr (Or.inr (Or.inr (Or.inr (Or.inl
        ⟨floor_div_sixty 4 (by push_cast; linarith) (by push_cast; linarith), rfl⟩))))
    · exact Or.inr (Or.inr (Or.inr (Or.inr (Or.inr
        ⟨floor_div_sixty 5 (by push_cast; linarith) (by push_cast; linarith), rfl⟩))))
  · refine ⟨?_, ?_, ?_, ?_, ?_⟩ <;> norm_num [hsv_sector]

/-- Witness of C17 at the boundary hue `h = 60`: sector 1, `(x, c, 0)`. -/
theorem hsv_sector_selects_floor_witness :
    ((0 : ℚ) ≤ 60 ∧ (60 : ℚ) < 360) ∧
    hsv_sector 60 (3 / 10) (1 / 10) = spec_sector_perm ⌊(60 : ℚ) / 60⌋ (3 / 10) (1 / 10) :=
  ⟨by norm_num,
   (hsv_sector_selects_floor 60 (3 / 10) (1 / 10) (by norm_num) (by norm_num)).1⟩

/-- Adding `120` to a hue `h ≥ 0` leaves `fmodf (h / 60) 2` unchanged. -/
theorem fmodf_hue_add_120 {h : ℚ} (hh0 : 0 ≤ h) :
    fmodf ((h + 120) / 60) 2 = fmodf (h / 60) 2 := by
  rw [fmodf_two_eq (by positivity), fmodf_two_eq (by positivity)]
  have e : (h + 120) / 60 / 2 = h / 60 / 2 + 1 := by ring
  rw [e, Int.floor_add_one]
  push_cast
  ring

/-- C20: no jump at a sector boundary: for `k = 1..5` and saturation and value
in `[0,1]`, with `c = v*s` and `x` computed at `h = 60*k`, the assignments of
branch `k-1` and of branch `k` give the same `(r1, g1, b1)`; branch `k` is the
one the comparison chain takes at `h = 60*k`, so the three products are the
same with either branch. -/
theorem hsv_no_jump_at_boundary (k : Nat) (hk1 : 1 ≤ k) (hk5 : k ≤ 5) (s v : ℚ)
    (_hs0 : 0 ≤ s) (_hs1 : s ≤ 1) (_hv0 : 0 ≤ v) (_hv1 : v ≤ 1) :
    hsv_branch (k - 1) (v * s) (hsv_x (60 * (k : ℚ)) (v * s)) =
      hsv_branch k (v * s) (hsv_x (60 * (k : ℚ)) (v * s)) ∧
    hsv_sector (60 * (k : ℚ)) (v * s) (hsv_x (60 * (k : ℚ)) (v * s)) =
      hsv_branch k (v * s) (hsv_x (60 * (k : ℚ)) (v * s)) ∧
    hsv_scaled (60 * (k : ℚ)) s v =
      (((hsv_branch (k - 1) (v * s) (hsv_x (60 * (k : ℚ)) (v * s))).1 + (v - v * s)) * 255,
       ((hsv_branch (k - 1) (v * s) (hsv_x (60 * (k : ℚ)) (v * s))).2.1 + (v - v * s)) * 255,
       ((hsv_branch (k - 1) (v * s) (hsv_x (60 * (k : ℚ)) (v * s))).2.2 + (v - v * s)) * 255) := by
  have hsc : ∀ h : ℚ, hsv_scaled h s v =
      (((hsv_sector h (v * s) (hsv_x h (v * s))).1 + (v - v * s)) * 255,
       ((hsv_sector h (v * s) (hsv_x h (v * s))).2.1 + (v - v * s)) * 255,
       ((hsv_sector h (v * s) (hsv_x h (v * s))).2.2 + (v - v * s)) * 255) := fun _ => rfl
  have key : hsv_branch (k - 1) (v * s) (hsv_x (60 * (k : ℚ)) (v * s)) =
        hsv_branch k (v * s) (hsv_x (60 * (k : ℚ)) (v * s)) ∧
      hsv_sector (60 * (k : ℚ)) (v * s) (hsv_x (60 * (k : ℚ)) (v * s)) =
        hsv_branch k (v * s) (hsv_x (60 * (k : ℚ)) (v * s)) := by
    interval_cases k <;>
      norm_num [hsv_branch, hsv_sector, hsv_x, fmodf, fabsf, truncQ]
  refine ⟨key.1, key.2, ?_⟩
  rw [hsc, key.2, key.1]

/-- Witness of C20 at the boundary `h = 180` (`k = 3`), `s = 1/2`, `v = 3/10`. -/
theorem hsv_no_jump_at_boundary_witness :
    (1 ≤ 3 ∧ 3 ≤ 5 ∧ (0 : ℚ) ≤ 1 / 2 ∧ (1 / 2 : ℚ) ≤ 1 ∧ (0 : ℚ) ≤ 3 / 10 ∧
      (3 / 10 : ℚ) ≤ 1) ∧
    hsv_branch (3 - 1) (3 / 10 * (1 / 2)) (hsv_x (60 * ((3 : ℕ) : ℚ)) (3 / 10 * (1 / 2))) =
      hsv_branch 3 (3 / 10 * (1 / 2)) (hsv_x (60 * ((3 : ℕ) : ℚ)) (3 / 10 * (1 / 2))) :=
  ⟨by norm_num,
   (hsv_no_jump_at_boundary 3 (by norm_num) (by norm_num) (1 / 2) (3 / 10) (by norm_num)
      (by norm_num) (by norm_num) (by norm_num)).1⟩

/-! ## The rainbow effect: hues -/

theorem fmodf_360_eq {x : ℚ} (hx : 0 ≤ x) : fmodf x 360 = spec_mod x 360 := by
  have h2 : 0 ≤ x / 360 := by positivity
  simp [fmodf, spec_mod, truncQ_of_nonneg h2]

theorem spec_mod_360_range (x : ℚ) : 0 ≤ spec_mod x 360 ∧ spec_mod x 360 < 360 := by
  unfold spec_mod
  have h1 := Int.floor_le (x / 360)
  have h2 := Int.lt_floor_add_one (x / 360)
  constructor <;> linarith

theorem spec_mod_360_of_range {x : ℚ} (h0 : 0 ≤ x) (h1 : x < 360) : spec_mod x 360 = x := by
  have hf : ⌊x / 360⌋ = 0 := by
    rw [Int.floor_eq_iff]
    constructor
    · push_cast; positivity
    · push_cast; rw [div_lt_iff₀ (by norm_num)]; linarith
  simp [spec_mod, hf]

theorem spec_mod_360_add (a b : ℚ) :
    spec_mod (spec_mod a 360 + b) 360 = spec_mod (a + b) 360 := by
  unfold spec_mod
  have e : (a - 360 * (⌊a / 360⌋ : ℚ) + b) / 360 = (a + b) / 360 - (⌊a / 360⌋ : ℚ) := by ring
  rw [e, Int.floor_sub_int]
  push_cast
  ring

/-- Two values with the same remainder modulo 360 differ by a multiple of 360. -/
theorem spec_mod_360_eq {a b : ℚ} (h : spec_mod a 360 = spec_mod b 360) :
    ∃ n : ℤ, a - b = 360 * (n : ℚ) := by
  refine ⟨⌊a / 360⌋ - ⌊b / 360⌋, ?_⟩
  unfold spec_mod at h
  push_cast
  linarith

theorem rainbow_effect_run_eq (k : Nat) {h0 : ℚ} (hh0 : 0 ≤ h0) (hh1 : h0 < 360) :
    rainbow_effect_run k h0 = spec_mod (h0 + 3 * (k : ℚ)) 360 := by
  induction k with
  | zero => simp [rainbow_effect_run, spec_mod_360_of_range hh0 hh1]
  | succ k ih =>
    have hr := (spec_mod_360_range (h0 + 3 * (k : ℚ))).1
    rw [rainbow_effect_run, ih, rainbow_effect_advance, fmodf_360_eq (by linarith),
      spec_mod_360_add]
    congr 1
    push_cast
    ring

theorem rainbow_hue_eq (i : Nat) {ho : ℚ} (h0 : 0 ≤ ho) :
    rainbow_hue i ho = spec_mod ((i : ℚ) * 360 / 25 + ho) 360 := by
  have hn : (NUM_LEDS : ℚ) = 25 := by norm_num [NUM_LEDS]
  unfold rainbow_hue
  rw [hn, fmodf_360_eq (by positivity)]

/-- C15: every call of `hsv_to_rgb` the rainbow effect makes meets that
function's precondition: for every pixel `i` in `[0,25)` and `hue_offset` in
`[0,360)`, the hue argument lies in `[0,360)`, and the saturation `1` and the
value `3/10` lie in `[0,1]`. -/
theorem rainbow_hsv_precondition (i : Nat) (_hi : i < NUM_LEDS) (ho : ℚ)
    (h0 : 0 ≤ ho) (_h1 : ho < 360) :
    rainbow_pixel_call ho i =
      DriverCall.set_pixel i (hsv_to_rgb (rainbow_hue i ho) 1 (3 / 10)).r
        (hsv_to_rgb (rainbow_hue i ho) 1 (3 / 10)).g
        (hsv_to_rgb (rainbow_hue i ho) 1 (3 / 10)).b ∧
    (0 ≤ rainbow_hue i ho ∧ rainbow_hue i ho < 360) ∧
    ((0 : ℚ) ≤ 1 ∧ (1 : ℚ) ≤ 1) ∧ ((0 : ℚ) ≤ 3 / 10 ∧ (3 / 10 : ℚ) ≤ 1) := by
  refine ⟨rfl, ?_, by norm_num, by norm_num⟩
  rw [rainbow_hue_eq i h0]
  exact spec_mod_360_range _

/-- Witness of C15 at pixel 24 and `hue_offset = 357`. -/
theorem rainbow_hsv_precondition_witness :
    (24 < NUM_LEDS ∧ (0 : ℚ) ≤ 357 ∧ (357 : ℚ) < 360) ∧
    (0 ≤ rainbow_hue 24 357 ∧ rainbow_hue 24 357 < 360) :=
  ⟨⟨by decide, by norm_num, by norm_num⟩,
   (rainbow_hsv_precondition 24 (by decide) 357 (by norm_num) (by norm_num)).2.1⟩

/-! ## The driver: general facts -/

theorem driver_exec_length (strip : led_strip_t) (call : DriverCall) :
    (driver_exec strip call).1.pixels.length = strip.pixels.length := by
  cases call with
  | clear => simp [driver_exec, led_strip_clear]
  | set_pixel index red green blue =>
    simp only [driver_exec, led_strip_set_pixel]
    split_ifs <;> simp
  | refresh => simp [driver_exec, led_strip_refresh]

theorem driver_run_append (strip : led_strip_t) (l1 l2 : List DriverCall) :
    driver_run strip (l1 ++ l2) = driver_run (driver_run strip l1) l2 := by
  induction l1 generalizing strip with
  | nil => rfl
  | cons call rest ih => exact ih _

/-- Every call succeeds when every index passed to `led_strip_set_pixel` is
below the strip length. -/
theorem driver_codes_ok (calls : List DriverCall) (strip : led_strip_t)
    (h : ∀ idx ∈ set_pixel_indices calls, idx < strip.pixels.length) :
    ∀ code ∈ driver_codes strip calls, code = esp_err_t.ESP_OK := by
  induction calls generalizing strip with
  | nil => intro code hc; simp [driver_codes] at hc
  | cons call rest ih =>
    intro code hc
    simp only [driver_codes, List.mem_cons] at hc
    rcases hc with hc | hc
    · cases call with
      | clear => rw [hc]; rfl
      | set_pixel index red green blue =>
        have hi : index < strip.pixels.length := h index (by simp [set_pixel_indices])
        rw [hc]
        simp [driver_exec, led_strip_set_pixel, hi]
      | refresh => rw [hc]; rfl
    · apply ih (driver_exec strip call).1 _ code hc
      intro idx hidx
      rw [driver_exec_length]
      apply h
      cases call <;> simp [set_pixel_indices, hidx]

/-- The number of frames transmitted grows by the number of refresh calls. -/
theorem driver_run_frames_length (calls : List DriverCall) (strip : led_strip_t) :
    (driver_run strip calls).frames.length =
      strip.frames.length + calls.count DriverCall.refresh := by
  induction calls generalizing strip with
  | nil => simp [driver_run]
  | cons call rest ih =>
    rw [driver_run, ih]
    cases call with
    | clear => simp [driver_exec, led_strip_clear]
    | set_pixel index red green blue =>
      simp only [driver_exec, led_strip_set_pixel]
      split_ifs <;> simp
    | refresh =>
      simp [driver_exec, led_strip_refresh]
      omega

theorem to_uint8_lt (q : ℚ) : to_uint8 q < 256 := by
  unfold to_uint8
  omega

/-- Staging the colours `f 0 .. f (k-1)` at the indices `0 .. k-1` replaces the
first `k` cells and leaves the others and the transmitted frames as they were. -/
theorem driver_run_stage (f : Nat → RGB)
    (hf : ∀ i, (f i).r < 256 ∧ (f i).g < 256 ∧ (f i).b < 256)
    (pixels : List RGB) (frames : List (List RGB)) (k : Nat) (hk : k ≤ pixels.length) :
    driver_run ⟨pixels, frames⟩
        ((List.range k).map (fun i => DriverCall.set_pixel i (f i).r (f i).g (f i).b)) =
      ⟨(List.range k).map f ++ pixels.drop k, frames⟩ := by
  induction k with
  | zero => simp [driver_run]
  | succ k ih =>
    have hk1 : k < pixels.length := hk
    rw [List.range_succ, List.map_append, driver_run_append, ih (by omega)]
    have hlen : k < ((List.range k).map f ++ pixels.drop k).length := by
      simp; omega
    obtain ⟨hr, hg, hb⟩ := hf k
    have hcell : (⟨(f k).r % 256, (f k).g % 256, (f k).b % 256⟩ : RGB) = f k := by
      rw [Nat.mod_eq_of_lt hr, Nat.mod_eq_of_lt hg, Nat.mod_eq_of_lt hb]
    have hdrop : pixels.drop k = pixels[k] :: pixels.drop (k + 1) :=
      List.drop_eq_getElem_cons hk1
    simp only [List.map_cons, List.map_nil, driver_run, driver_exec, led_strip_set_pixel,
      hlen, if_true, hcell]
    rw [List.set_append_right _ _ (by simp), hdrop, List.length_map, List.length_range,
      Nat.sub_self, List.set_cons_zero]
    simp

/-! ## The rainbow effect: frames -/

theorem rainbow_effect_frame_eq (strip : led_strip_t) (hlen : strip.pixels.length = NUM_LEDS)
    (ho : ℚ) :
    rainbow_effect_frame strip ho =
      ⟨(List.range NUM_LEDS).map (fun i => hsv_to_rgb (rainbow_hue i ho) 1 (3 / 10)),
       (List.range NUM_LEDS).map (fun i => hsv_to_rgb (rainbow_hue i ho) 1 (3 / 10)) ::
         strip.frames⟩ := by
  obtain ⟨pixels, frames⟩ := strip
  simp only at hlen
  have hcalls : (List.range NUM_LEDS).map (rainbow_pixel_call ho) =
      (List.range NUM_LEDS).map (fun i => DriverCall.set_pixel i
        (hsv_to_rgb (rainbow_hue i ho) 1 (3 / 10)).r
        (hsv_to_rgb (rainbow_hue i ho) 1 (3 / 10)).g
        (hsv_to_rgb (rainbow_hue i ho) 1 (3 / 10)).b) := rfl
  have hstage := driver_run_stage (fun i => hsv_to_rgb (rainbow_hue i ho) 1 (3 / 10))
    (fun i => ⟨to_uint8_lt _, to_uint8_lt _, to_uint8_lt _⟩) pixels frames NUM_LEDS
    (le_of_eq hlen.symm)
  have hdrop : pixels.drop NUM_LEDS = [] := by
    rw [← hlen]; exact List.drop_length pixels
  rw [rainbow_effect_frame, rainbow_effect_calls, driver_run_append, hcalls, hstage, hdrop,
    List.append_nil]
  rfl

theorem loop_effect_indices :
    ∀ i, i < 25 → ∀ idx ∈ set_pixel_indices (loop_effect_calls i), idx < NUM_LEDS := by
  decide

theorem knight_rider_indices :
    ∀ i, i < 25 → ∀ idx ∈ set_pixel_indices (knight_rider_calls i), idx < NUM_LEDS := by
  decide

theorem rainbow_effect_indices (ho : ℚ) :
    set_pixel_indices (rainbow_effect_calls ho) = List.range NUM_LEDS := by
  have h : ∀ l : List Nat,
      set_pixel_indices (l.map (rainbow_pixel_call ho) ++ [DriverCall.refresh]) = l := by
    intro l
    induction l with
    | nil => rfl
    | cons i rest ih =>
      simp only [List.map_cons, List.cons_append, rainbow_pixel_call, set_pixel_indices]
      exact congrArg _ ih
  exact h _

/-- C11: in each of the three effects, in every state reached from the initial
state, every index passed to `led_strip_set_pixel` during a frame lies in
`[0, 25)`; and on a strip of 25 cells every driver call of the frame returns
`ESP_OK`: the error branch of `led_strip_set_pixel` is never taken. -/
theorem set_pixel_index_in_range (strip : led_strip_t)
    (hlen : strip.pixels.length = NUM_LEDS) :
    (∀ k,
      (∀ idx ∈ set_pixel_indices (loop_effect_calls (loop_effect_run k 0)),
        idx < NUM_LEDS) ∧
      (∀ code ∈ driver_codes strip (loop_effect_calls (loop_effect_run k 0)),
        code = esp_err_t.ESP_OK)) ∧
    (∀ n,
      (∀ idx ∈ set_pixel_indices (knight_rider_calls (knight_rider_run n).led_index),
        idx < NUM_LEDS) ∧
      (∀ code ∈ driver_codes strip (knight_rider_calls (knight_rider_run n).led_index),
        code = esp_err_t.ESP_OK)) ∧
    (∀ k,
      (∀ idx ∈ set_pixel_indices (rainbow_effect_calls (rainbow_effect_run k 0)),
        idx < NUM_LEDS) ∧
      (∀ code ∈ driver_codes strip (rainbow_effect_calls (rainbow_effect_run k 0)),
        code = esp_err_t.ESP_OK)) := by
  have hloop : ∀ k, ∀ idx ∈ set_pixel_indices (loop_effect_calls (loop_effect_run k 0)),
      idx < NUM_LEDS := by
    intro k
    apply loop_effect_indices
    rw [loop_effect_run_eq k (by decide)]
    exact Nat.mod_lt _ (by decide)
  have hknight : ∀ n,
      ∀ idx ∈ set_pixel_indices (knight_rider_calls (knight_rider_run n).led_index),
      idx < NUM_LEDS := by
    intro n
    apply knight_rider_indices
    have hinv := knight_rider_run_inv n
    simp only [KnightInv, NUM_LEDS] at hinv
    omega
  have hrain : ∀ k,
      ∀ idx ∈ set_pixel_indices (rainbow_effect_calls (rainbow_effect_run k 0)),
      idx < NUM_LEDS := by
    intro k idx hidx
    rw [rainbow_effect_indices] at hidx
    exact List.mem_range.mp hidx
  refine ⟨fun k => ⟨hloop k, ?_⟩, fun n => ⟨hknight n, ?_⟩, fun k => ⟨hrain k, ?_⟩⟩
  · exact driver_codes_ok _ strip (by rw [hlen]; exact hloop k)
  · exact driver_codes_ok _ strip (by rw [hlen]; exact hknight n)
  · exact driver_codes_ok _ strip (by rw [hlen]; exact hrain k)

/-- Witness of C11 on the freshly configured strip: in the last state of the
upward sweep, index 24, the calls of the frame all return `ESP_OK`. -/
theorem set_pixel_index_in_range_witness :
    configured_strip.pixels.length = NUM_LEDS ∧
    (∀ code ∈ driver_codes configured_strip
        (knight_rider_calls (knight_rider_run 24).led_index),
      code = esp_err_t.ESP_OK) :=
  ⟨by decide, ((set_pixel_index_in_range configured_strip (by decide)).2.1 24).2⟩

/-! ## The effect loops -/

theorem loop_effect_frame_count (strip : led_strip_t) (i : Nat) :
    (loop_effect_frame strip i).frames.length = strip.frames.length + 1 := by
  rw [loop_effect_frame, driver_run_frames_length]
  simp [loop_effect_calls]

theorem knight_rider_frame_count (strip : led_strip_t) (i : Nat) :
    (knight_rider_frame strip i).frames.length = strip.frames.length + 1 := by
  rw [knight_rider_frame, driver_run_frames_length]
  unfold knight_rider_calls
  split_ifs <;> simp

theorem loop_effect_running (fuel : Nat) (i : Nat) (strip : led_strip_t) :
    ∃ s, loop_effect fuel i strip = Outcome.running s ∧
      s.frames.length = strip.frames.length + fuel := by
  induction fuel generalizing i strip with
  | zero => exact ⟨strip, rfl, rfl⟩
  | succ fuel ih =>
    obtain ⟨s, hs, hl⟩ := ih (loop_effect_advance i) (loop_effect_frame strip i)
    refine ⟨s, hs, ?_⟩
    rw [hl, loop_effect_frame_count]
    omega

theorem knight_rider_effect_running (fuel : Nat) (st : KnightState) (strip : led_strip_t) :
    ∃ s, knight_rider_effect fuel st strip = Outcome.running s ∧
      s.frames.length = strip.frames.length + fuel := by
  induction fuel generalizing st strip with
  | zero => exact ⟨strip, rfl, rfl⟩
  | succ fuel ih =>
    obtain ⟨s, hs, hl⟩ := ih (knight_rider_advance st) (knight_rider_frame strip st.led_index)
    refine ⟨s, hs, ?_⟩
    rw [hl, knight_rider_frame_count]
    omega

/-- C14, evaluated on the code: with the built-in `mode = 2`, `app_main`
returns after `rainbow_effect` has transmitted exactly one frame, however many
iterations are allowed, because `rainbow_effect` has no loop; with mode 0 or 1
the selected effect is still inside its `while (1)` after any number `fuel` of
iterations and has transmitted `fuel` frames. -/
theorem app_main_rainbow_single_frame (fuel : Nat) :
    app_main fuel = Outcome.returned (rainbow_effect_frame configured_strip 0) ∧
    (app_main fuel).strip.frames.length = 1 ∧
    (rainbow_effect 0 configured_strip).1 = 3 ∧
    (∃ s, app_main_switch 0 fuel configured_strip = Outcome.running s ∧
      s.frames.length = fuel) ∧
    (∃ s, app_main_switch 1 fuel configured_strip = Outcome.running s ∧
      s.frames.length = fuel) := by
  have e : app_main fuel = Outcome.returned (rainbow_effect_frame configured_strip 0) := by
    simp [app_main, app_main_switch, rainbow_effect]
  refine ⟨e, ?_, ?_, ?_, ?_⟩
  · rw [e, Outcome.strip, rainbow_effect_frame_eq configured_strip (by decide) 0]
    rfl
  · norm_num [rainbow_effect, rainbow_effect_advance, fmodf, truncQ]
  · obtain ⟨s, hs, hl⟩ := loop_effect_running fuel 0 configured_strip
    exact ⟨s, by simp [app_main_switch, hs], by simpa [configured_strip] using hl⟩
  · obtain ⟨s, hs, hl⟩ := knight_rider_effect_running fuel knight_rider_init configured_strip
    exact ⟨s, by simp [app_main_switch, hs], by simpa [configured_strip] using hl⟩

/-! ## Binary32 rounding: error and evaluation -/

theorem round_ties_even_error (y : ℚ) : |(round_ties_even y : ℚ) - y| ≤ 1 / 2 := by
  have h1 := Int.floor_le y
  have h2 := Int.lt_floor_add_one y
  unfold round_ties_even
  split_ifs with a b c
  · rw [abs_le]; constructor <;> linarith
  · rw [abs_le]; push_cast; constructor <;> linarith
  · rw [abs_le]; constructor <;> linarith
  · rw [abs_le]; push_cast; constructor <;> linarith

theorem round_ties_even_eq {y : ℚ} {n : ℤ} (h : |y - (n : ℚ)| < 1 / 2) :
    round_ties_even y = n := by
  rw [abs_lt] at h
  obtain ⟨h1, h2⟩ := h
  have hr := round_ties_even_error y
  rw [abs_le] at hr
  obtain ⟨h3, h4⟩ := hr
  have lo : ((round_ties_even y - n : ℤ) : ℚ) < 1 := by push_cast; linarith
  have hi : (-1 : ℚ) < ((round_ties_even y - n : ℤ) : ℚ) := by push_cast; linarith
  have lo2 : round_ties_even y - n < 1 := by exact_mod_cast lo
  have hi2 : -1 < round_ties_even y - n := by exact_mod_cast hi
  omega

theorem round_ties_even_intCast (n : ℤ) : round_ties_even (n : ℚ) = n :=
  round_ties_even_eq (by simp)

theorem f32_ulp_pos (q : ℚ) : 0 < f32_ulp q := by
  unfold f32_ulp
  positivity

/-- The rounding error is at most half the spacing of the binade. -/
theorem f32_round_error (q : ℚ) : |f32_round q - q| ≤ f32_ulp q / 2 := by
  have hu := f32_ulp_pos q
  have hr := round_ties_even_error (q / f32_ulp q)
  have e : f32_round q - q = ((round_ties_even (q / f32_ulp q) : ℚ) - q / f32_ulp q) * f32_ulp q := by
    unfold f32_round
    field_simp
  rw [e, abs_mul, abs_of_pos hu]
  calc |(round_ties_even (q / f32_ulp q) : ℚ) - q / f32_ulp q| * f32_ulp q
      ≤ 1 / 2 * f32_ulp q := mul_le_mul_of_nonneg_right hr hu.le
    _ = f32_ulp q / 2 := by ring

theorem f32_round_zero : f32_round 0 = 0 := by
  have h : round_ties_even ((0 : ℚ) / f32_ulp 0) = 0 := by
    rw [zero_div]
    exact round_ties_even_intCast 0
  unfold f32_round
  rw [h]
  simp

theorem f32_exponent_le {q : ℚ} {k : ℤ} (hk : -126 ≤ k) (h0 : q ≠ 0)
    (hq : |q| ≤ (2 : ℚ) ^ k) : f32_exponent q ≤ k := by
  unfold f32_exponent
  apply max_le _ hk
  have hpos : 0 < |q| := abs_pos.mpr h0
  have h1 : ((2 : ℕ) : ℚ) ^ Int.log 2 |q| ≤ |q| := Int.zpow_log_le_self (by norm_num) hpos
  have h2 : (2 : ℚ) ^ Int.log 2 |q| ≤ (2 : ℚ) ^ k := by
    have h3 : ((2 : ℕ) : ℚ) = 2 := by norm_num
    rw [h3] at h1
    exact le_trans h1 hq
  exact (zpow_le_zpow_iff_right₀ (by norm_num : (1 : ℚ) < 2)).mp h2

/-- A value of magnitude at most `2 ^ k` is rounded with an error of at most
`2 ^ (k - 24)`. -/
theorem f32_round_error_le {q : ℚ} {k : ℤ} (hk : -126 ≤ k) (hq : |q| ≤ (2 : ℚ) ^ k) :
    |f32_round q - q| ≤ (2 : ℚ) ^ (k - 24) := by
  by_cases h0 : q = 0
  · rw [h0, f32_round_zero]
    simp only [sub_zero, abs_zero]
    positivity
  have he := f32_exponent_le hk h0 hq
  have hu : f32_ulp q ≤ (2 : ℚ) ^ (k - 23) := by
    unfold f32_ulp
    exact (zpow_le_zpow_iff_right₀ (by norm_num : (1 : ℚ) < 2)).mpr (by omega)
  have h23 : (2 : ℚ) ^ (k - 23) = 2 * (2 : ℚ) ^ (k - 24) := by
    have : k - 23 = (k - 24) + 1 := by ring
    rw [this, zpow_add_one₀ (by norm_num)]
    ring
  have := f32_round_error q
  linarith

theorem f32_exponent_eq {q : ℚ} {e : ℤ} (he : -126 ≤ e) (h1 : (2 : ℚ) ^ e ≤ |q|)
    (h2 : |q| < (2 : ℚ) ^ (e + 1)) : f32_exponent q = e := by
  have hpos : 0 < |q| := lt_of_lt_of_le (by positivity) h1
  have h3 : ((2 : ℕ) : ℚ) = 2 := by norm_num
  have hl : Int.log 2 |q| = e := by
    apply le_antisymm
    · have := (Int.lt_zpow_iff_log_lt (b := 2) (by norm_num) hpos (x := e + 1)).mp
        (by rw [h3]; exact h2)
      omega
    · exact (Int.zpow_le_iff_le_log (b := 2) (by norm_num) hpos).mp (by rw [h3]; exact h1)
  unfold f32_exponent
  rw [hl]
  exact max_eq_left he

/-- Evaluation of a rounding: in the binade of exponent `e`, a value within
half a spacing of `n * 2 ^ (e - 23)` is rounded to it. -/
theorem f32_round_eval {q : ℚ} (e n : ℤ) (he : -126 ≤ e) (h1 : (2 : ℚ) ^ e ≤ |q|)
    (h2 : |q| < (2 : ℚ) ^ (e + 1)) (hn : |q / (2 : ℚ) ^ (e - 23) - (n : ℚ)| < 1 / 2) :
    f32_round q = (n : ℚ) * (2 : ℚ) ^ (e - 23) := by
  unfold f32_round f32_ulp
  rw [f32_exponent_eq he h1 h2, round_ties_even_eq hn]

theorem round_ties_even_tie {y : ℚ} {n : ℤ} (h : y = (n : ℚ) + 1 / 2) (hn : n % 2 = 0) :
    round_ties_even y = n := by
  have hf : ⌊y⌋ = n := by
    rw [Int.floor_eq_iff, h]
    constructor <;> linarith
  unfold round_ties_even
  rw [hf, h]
  norm_num [hn]

/-- Evaluation of a rounding at a tie: a value half way between `n * 2 ^ (e - 23)`
and the next binary32 number, with `n` even, is rounded to the former. -/
theorem f32_round_eval_tie {q : ℚ} (e n : ℤ) (he : -126 ≤ e) (h1 : (2 : ℚ) ^ e ≤ |q|)
    (h2 : |q| < (2 : ℚ) ^ (e + 1)) (hq : q / (2 : ℚ) ^ (e - 23) = (n : ℚ) + 1 / 2)
    (hn : n % 2 = 0) : f32_round q = (n : ℚ) * (2 : ℚ) ^ (e - 23) := by
  unfold f32_round f32_ulp
  rw [f32_exponent_eq he h1 h2, round_ties_even_tie hq hn]

theorem f32_exponent_lt {q : ℚ} {k : ℤ} (hk : -126 ≤ k) (h0 : q ≠ 0)
    (hq : |q| < (2 : ℚ) ^ (k + 1)) : f32_exponent q ≤ k := by
  unfold f32_exponent
  apply max_le _ hk
  have hpos : 0 < |q| := abs_pos.mpr h0
  have h3 : ((2 : ℕ) : ℚ) = 2 := by norm_num
  have := (Int.lt_zpow_iff_log_lt (b := 2) (by norm_num) hpos (x := k + 1)).mp
    (by rw [h3]; exact hq)
  omega

/-- A multiple of `2 ^ j` of magnitude below `2 ^ (j + 24)`, with `j ≥ -149`,
is a binary32 number: rounding leaves it as it is. -/
theorem f32_round_of_multiple {q : ℚ} (j n : ℤ) (hj : -149 ≤ j) (hq : q = (n : ℚ) * (2 : ℚ) ^ j)
    (hb : |q| < (2 : ℚ) ^ (j + 24)) : f32_round q = q := by
  by_cases h0 : q = 0
  · rw [h0, f32_round_zero]
  have hb2 : |q| < (2 : ℚ) ^ (j + 23 + 1) := by
    have e : j + 23 + 1 = j + 24 := by ring
    rw [e]; exact hb
  have he : f32_exponent q ≤ j + 23 := f32_exponent_lt (by omega) h0 hb2
  unfold f32_round f32_ulp
  generalize f32_exponent q = E at he
  obtain ⟨d, hd⟩ : ∃ d : ℕ, j = (E - 23) + (d : ℤ) := ⟨(j - (E - 23)).toNat, by omega⟩
  have hu : (2 : ℚ) ^ j = (2 : ℚ) ^ (E - 23) * (2 : ℚ) ^ d := by
    rw [hd, zpow_add₀ (by norm_num : (2 : ℚ) ≠ 0), zpow_natCast]
  have hup : (0 : ℚ) < (2 : ℚ) ^ (E - 23) := by positivity
  have hquot : q / (2 : ℚ) ^ (E - 23) = ((n * 2 ^ d : ℤ) : ℚ) := by
    rw [hq, hu]
    push_cast
    field_simp
    ring
  rw [hquot, round_ties_even_intCast, ← hquot]
  field_simp

theorem round_ties_even_nonneg {y : ℚ} (hy : 0 ≤ y) : 0 ≤ round_ties_even y := by
  have hf : 0 ≤ ⌊y⌋ := Int.floor_nonneg.mpr hy
  unfold round_ties_even
  split_ifs <;> omega

theorem f32_round_nonneg {q : ℚ} (hq : 0 ≤ q) : 0 ≤ f32_round q := by
  have hu := f32_ulp_pos q
  unfold f32_round
  have h1 : 0 ≤ round_ties_even (q / f32_ulp q) := round_ties_even_nonneg (by positivity)
  have h2 : (0 : ℚ) ≤ (round_ties_even (q / f32_ulp q) : ℚ) := by exact_mod_cast h1
  positivity

/-! ## The triangle factor of the colour conversion -/

/-- For `y ≥ 0` the factor `1 - |fmod(y, 2) - 1|` is the distance from `y` to
the nearest even integer: it is at most the distance to every even integer and
equal to the distance to one of them. -/
theorem hsv_factor_dist {y : ℚ} (hy : 0 ≤ y) :
    (∀ k : ℤ, 1 - fabsf (fmodf y 2 - 1) ≤ |y - 2 * (k : ℚ)|) ∧
    ∃ k : ℤ, 1 - fabsf (fmodf y 2 - 1) = |y - 2 * (k : ℚ)| := by
  have h0 := fmodf_two_nonneg hy
  have h2 := fmodf_two_lt hy
  have hr : fmodf y 2 = y - 2 * (⌊y / 2⌋ : ℚ) := fmodf_two_eq hy
  rw [fabsf_eq_abs]
  constructor
  · intro k
    rcases le_or_lt k ⌊y / 2⌋ with hk | hk
    · have hk2 : (k : ℚ) ≤ (⌊y / 2⌋ : ℚ) := by exact_mod_cast hk
      have h3 : -(fmodf y 2 - 1) ≤ |fmodf y 2 - 1| := neg_le_abs _
      have h4 : y - 2 * (k : ℚ) ≤ |y - 2 * (k : ℚ)| := le_abs_self _
      linarith
    · have hk1 : ⌊y / 2⌋ + 1 ≤ k := hk
      have hk2 : (⌊y / 2⌋ : ℚ) + 1 ≤ (k : ℚ) := by exact_mod_cast hk1
      have h3 : fmodf y 2 - 1 ≤ |fmodf y 2 - 1| := le_abs_self _
      have h4 : -(y - 2 * (k : ℚ)) ≤ |y - 2 * (k : ℚ)| := neg_le_abs _
      linarith
  · rcases le_or_lt (fmodf y 2) 1 with h1 | h1
    · refine ⟨⌊y / 2⌋, ?_⟩
      rw [abs_of_nonpos (by linarith), abs_of_nonneg (by linarith)]
      linarith
    · refine ⟨⌊y / 2⌋ + 1, ?_⟩
      rw [abs_of_pos (by linarith), abs_of_neg (by push_cast; linarith)]
      push_cast
      linarith

/-- The factor changes by no more than the hue quotient does. -/
theorem hsv_factor_lipschitz {y z : ℚ} (hy : 0 ≤ y) (hz : 0 ≤ z) :
    |(1 - fabsf (fmodf y 2 - 1)) - (1 - fabsf (fmodf z 2 - 1))| ≤ |y - z| := by
  obtain ⟨hy1, ky, hy2⟩ := hsv_factor_dist hy
  obtain ⟨hz1, kz, hz2⟩ := hsv_factor_dist hz
  have a1 := hy1 kz
  have a2 := hz1 ky
  have t1 : |y - 2 * (kz : ℚ)| ≤ |y - z| + |z - 2 * (kz : ℚ)| := abs_sub_le _ _ _
  have t2 : |z - 2 * (ky : ℚ)| ≤ |z - y| + |y - 2 * (ky : ℚ)| := abs_sub_le _ _ _
  rw [abs_sub_comm z y] at t2
  rw [abs_le]
  constructor <;> linarith

theorem hsv_factor_range_of_nonneg {y : ℚ} (hy : 0 ≤ y) :
    0 ≤ 1 - fabsf (fmodf y 2 - 1) ∧ 1 - fabsf (fmodf y 2 - 1) ≤ 1 := by
  have h0 := fmodf_two_nonneg hy
  have h2 := fmodf_two_lt hy
  rw [fabsf_eq_abs]
  constructor
  · have : |fmodf y 2 - 1| ≤ 1 := abs_le.mpr ⟨by linarith, by linarith⟩
    linarith
  · have := abs_nonneg (fmodf y 2 - 1)
    linarith

/-! ## Binary32 colour conversion: distance from the exact values -/

theorem hsv_c_f32_error {s v : ℚ} (hs0 : 0 ≤ s) (hs1 : s ≤ 1) (hv0 : 0 ≤ v) (hv1 : v ≤ 1) :
    |hsv_c_f32 s v - v * s| ≤ 1 / 16777216 := by
  have h0 : 0 ≤ v * s := mul_nonneg hv0 hs0
  have h1 : v * s ≤ 1 := by nlinarith
  have h := f32_round_error_le (q := v * s) (k := 0) (by norm_num)
    (by rw [abs_of_nonneg h0]; simpa using h1)
  norm_num at h
  exact h

theorem hsv_factor_f32_error {h : ℚ} (hh0 : 0 ≤ h) (hh1 : h < 360) :
    |hsv_factor_f32 h - (1 - fabsf (fmodf (h / 60) 2 - 1))| ≤ 5 / 8388608 := by
  have hq0 : 0 ≤ h / 60 := by positivity
  have hq1 : h / 60 ≤ 8 := by linarith
  have e1 := f32_round_error_le (q := h / 60) (k := 3) (by norm_num)
    (by rw [abs_of_nonneg hq0]; norm_num; exact hq1)
  norm_num at e1
  have hqf : 0 ≤ f32_round (h / 60) := f32_round_nonneg hq0
  have lip := le_trans (hsv_factor_lipschitz hqf hq0) e1
  have f0 := fmodf_two_nonneg hqf
  have f2 := fmodf_two_lt hqf
  have e2 := f32_round_error_le (q := fmodf (f32_round (h / 60)) 2 - 1) (k := 0) (by norm_num)
    (by rw [abs_le]; norm_num; constructor <;> linarith)
  norm_num at e2
  have e3 : |fabsf (f32_round (fmodf (f32_round (h / 60)) 2 - 1)) -
      fabsf (fmodf (f32_round (h / 60)) 2 - 1)| ≤ 1 / 16777216 := by
    rw [fabsf_eq_abs, fabsf_eq_abs]
    exact le_trans (abs_abs_sub_abs_le_abs_sub _ _) e2
  obtain ⟨r0, r1⟩ := hsv_factor_range_of_nonneg hqf
  have a0 : 0 ≤ fabsf (f32_round (fmodf (f32_round (h / 60)) 2 - 1)) := by
    rw [fabsf_eq_abs]; exact abs_nonneg _
  obtain ⟨e3a, e3b⟩ := abs_le.mp e3
  have e4 := f32_round_error_le
    (q := 1 - fabsf (f32_round (fmodf (f32_round (h / 60)) 2 - 1))) (k := 0) (by norm_num)
    (by rw [abs_le]; norm_num; constructor <;> linarith)
  norm_num at e4
  obtain ⟨e4a, e4b⟩ := abs_le.mp e4
  obtain ⟨la, lb⟩ := abs_le.mp lip
  unfold hsv_factor_f32
  rw [abs_le]
  constructor <;> linarith

theorem hsv_x_f32_error {h s v : ℚ} (hh0 : 0 ≤ h) (hh1 : h < 360) (hs0 : 0 ≤ s) (hs1 : s ≤ 1)
    (hv0 : 0 ≤ v) (hv1 : v ≤ 1) :
    |hsv_x_f32 h s v - hsv_x h (v * s)| ≤ 7 / 8388608 := by
  obtain ⟨ec0, ec1⟩ := abs_le.mp (hsv_c_f32_error hs0 hs1 hv0 hv1)
  obtain ⟨et0, et1⟩ := abs_le.mp (hsv_factor_f32_error hh0 hh1)
  obtain ⟨T0, T1⟩ := hsv_factor_range_of_nonneg (y := h / 60) (by positivity)
  have h0 : 0 ≤ v * s := mul_nonneg hv0 hs0
  have h1 : v * s ≤ 1 := by nlinarith
  have hx : hsv_x h (v * s) = v * s * (1 - fabsf (fmodf (h / 60) 2 - 1)) := rfl
  rw [hx]
  unfold hsv_x_f32
  generalize hsv_c_f32 s v = cf at *
  generalize hsv_factor_f32 h = tf at *
  generalize (1 - fabsf (fmodf (h / 60) 2 - 1)) = T at *
  generalize v * s = c at *
  have e : cf * tf - c * T = cf * (tf - T) + T * (cf - c) := by ring
  have hp0 : -(6 / 8388608) ≤ cf * tf - c * T := by rw [e]; nlinarith
  have hp1 : cf * tf - c * T ≤ 6 / 8388608 := by rw [e]; nlinarith
  have hcT0 : 0 ≤ c * T := mul_nonneg h0 T0
  have hcT1 : c * T ≤ 1 := by nlinarith
  have hmag : |cf * tf| ≤ (2 : ℚ) ^ (1 : ℤ) := by
    rw [abs_le]
    norm_num
    constructor <;> linarith
  have er := f32_round_error_le (q := cf * tf) (k := 1) (by norm_num) hmag
  norm_num at er
  obtain ⟨er0, er1⟩ := abs_le.mp er
  rw [abs_le]
  constructor <;> linarith

theorem hsv_m_f32_error {s v : ℚ} (hs0 : 0 ≤ s) (hs1 : s ≤ 1) (hv0 : 0 ≤ v) (hv1 : v ≤ 1) :
    |hsv_m_f32 s v - (v - v * s)| ≤ 3 / 16777216 := by
  obtain ⟨ec0, ec1⟩ := abs_le.mp (hsv_c_f32_error hs0 hs1 hv0 hv1)
  have h0 : 0 ≤ v * s := mul_nonneg hv0 hs0
  have h1 : v * s ≤ 1 := by nlinarith
  have er := f32_round_error_le (q := v - hsv_c_f32 s v) (k := 1) (by norm_num)
    (by rw [abs_le]; norm_num; constructor <;> linarith)
  norm_num at er
  obtain ⟨er0, er1⟩ := abs_le.mp er
  unfold hsv_m_f32
  rw [abs_le]
  constructor <;> linarith

/-- A binary32 product `(component + m) * 255` is within `1/1000` of the exact
one when the component and the offset are within the stated distances of the
exact ones and the exact sum lies in `[0, 1]`. -/
theorem hsv_product_f32_error {pf p mf m : ℚ} (hp : |pf - p| ≤ 7 / 8388608)
    (hm : |mf - m| ≤ 3 / 16777216) (h0 : 0 ≤ p + m) (h1 : p + m ≤ 1) :
    |hsv_product_f32 pf mf - (p + m) * 255| ≤ 1 / 1000 := by
  obtain ⟨hp0, hp1⟩ := abs_le.mp hp
  obtain ⟨hm0, hm1⟩ := abs_le.mp hm
  have e1 := f32_round_error_le (q := pf + mf) (k := 1) (by norm_num)
    (by rw [abs_le]; norm_num; constructor <;> linarith)
  norm_num at e1
  obtain ⟨e1a, e1b⟩ := abs_le.mp e1
  have e2 := f32_round_error_le (q := f32_round (pf + mf) * 255) (k := 8) (by norm_num)
    (by rw [abs_le]; norm_num; constructor <;> linarith)
  norm_num at e2
  obtain ⟨e2a, e2b⟩ := abs_le.mp e2
  unfold hsv_product_f32
  rw [abs_le]
  constructor <;> linarith

/-! ## Binary32 colour conversion against the reference decomposition -/

/-- In exact arithmetic the three products of the code are those of the
specification's decomposition. -/
theorem hsv_scaled_eq_reference {h : ℚ} (hh0 : 0 ≤ h) (hh1 : h < 360) (s v : ℚ) :
    hsv_scaled h s v = hsv_reference_products h s v := by
  have hm : fmodf (h / 60) 2 = spec_mod (h / 60) 2 := by
    rw [fmodf_two_eq (by positivity)]; rfl
  simp only [hsv_scaled, hsv_reference_products, hsv_sector_eq_spec hh0 hh1, fabsf_eq_abs, hm]

/-- A relation that holds of the pairs `(c, c')`, `(x, x')` and `(0, 0)` holds of
the components the comparison chain selects from them for the same hue. -/
theorem hsv_sector_rel (R : ℚ → ℚ → Prop) (h c x c' x' : ℚ) (hc : R c c') (hx : R x x')
    (h0 : R 0 0) :
    R (hsv_sector h c x).1 (hsv_sector h c' x').1 ∧
    R (hsv_sector h c x).2.1 (hsv_sector h c' x').2.1 ∧
    R (hsv_sector h c x).2.2 (hsv_sector h c' x').2.2 := by
  unfold hsv_sector
  split_ifs <;> exact ⟨by assumption, by assumption, by assumption⟩

/-- Each binary32 product of `hsv_to_rgb` is within `1/1000` of the exact
product. -/
theorem hsv_scaled_f32_error {h s v : ℚ} (hh0 : 0 ≤ h) (hh1 : h < 360) (hs0 : 0 ≤ s)
    (hs1 : s ≤ 1) (hv0 : 0 ≤ v) (hv1 : v ≤ 1) :
    |(hsv_scaled_f32 h s v).1 - (hsv_scaled h s v).1| ≤ 1 / 1000 ∧
    |(hsv_scaled_f32 h s v).2.1 - (hsv_scaled h s v).2.1| ≤ 1 / 1000 ∧
    |(hsv_scaled_f32 h s v).2.2 - (hsv_scaled h s v).2.2| ≤ 1 / 1000 := by
  obtain ⟨T0, T1⟩ := hsv_factor_range_of_nonneg (y := h / 60) (by positivity)
  have hc0 : 0 ≤ v * s := mul_nonneg hv0 hs0
  have hc1 : v * s ≤ v := by nlinarith
  have hx0 : 0 ≤ hsv_x h (v * s) := mul_nonneg hc0 T0
  have hx1 : hsv_x h (v * s) ≤ v * s := by
    unfold hsv_x; nlinarith
  have em := hsv_m_f32_error hs0 hs1 hv0 hv1
  have ec : |hsv_c_f32 s v - v * s| ≤ 7 / 8388608 :=
    le_trans (hsv_c_f32_error hs0 hs1 hv0 hv1) (by norm_num)
  have ex := hsv_x_f32_error hh0 hh1 hs0 hs1 hv0 hv1
  have ez : |(0 : ℚ) - 0| ≤ 7 / 8388608 := by norm_num
  exact hsv_sector_rel
    (fun pf p => |hsv_product_f32 pf (hsv_m_f32 s v) - (p + (v - v * s)) * 255| ≤ 1 / 1000)
    h (hsv_c_f32 s v) (hsv_x_f32 h s v) (v * s) (hsv_x h (v * s))
    (hsv_product_f32_error ec em (by linarith) (by linarith))
    (hsv_product_f32_error ex em (by linarith) (by linarith))
    (hsv_product_f32_error ez em (by linarith) (by linarith))

/-- A value strictly between `-1` and `256` is converted to `uint8_t` without
wrapping: the channel is its truncation. -/
theorem to_uint8_of_near_range {q : ℚ} (h0 : -1 < q) (h1 : q < 256) :
    (to_uint8 q : ℤ) = truncQ q ∧ truncQ q ≤ 255 := by
  have ht : 0 ≤ truncQ q ∧ truncQ q ≤ 255 := by
    unfold truncQ
    split_ifs with hq
    · constructor
      · exact Int.floor_nonneg.mpr hq
      · have : ⌊q⌋ < 256 := Int.floor_lt.mpr (by exact_mod_cast h1)
        omega
    · have hc : ⌈q⌉ = 0 := by
        rw [Int.ceil_eq_iff]
        constructor
        · push_cast; linarith
        · push_cast; linarith
      omega
  unfold to_uint8
  omega

/-- The truncation of a value within `1/1000` of a non-negative `E` lies between
the floors of `E - 1/1000` and `E + 1/1000`. -/
theorem truncQ_near {P E : ℚ} (hE : 0 ≤ E) (h : |P - E| ≤ 1 / 1000) :
    ⌊E - 1 / 1000⌋ ≤ truncQ P ∧ truncQ P ≤ ⌊E + 1 / 1000⌋ := by
  obtain ⟨h1, h2⟩ := abs_le.mp h
  unfold truncQ
  split_ifs with hP
  · exact ⟨Int.floor_mono (by linarith), Int.floor_mono (by linarith)⟩
  · have hc : ⌈P⌉ = 0 := by
      rw [Int.ceil_eq_iff]
      constructor
      · push_cast; linarith
      · push_cast; linarith
    rw [hc]
    constructor
    · have : ⌊E - 1 / 1000⌋ < 0 := Int.floor_lt.mpr (by push_cast; linarith)
      omega
    · exact Int.floor_nonneg.mpr (by linarith)

/-! ## Binary32 colour conversion at particular inputs -/

theorem f32_round_one : f32_round 1 = 1 :=
  f32_round_of_multiple 0 1 (by norm_num) (by norm_num) (by norm_num)

theorem f32_round_255 : f32_round 255 = 255 :=
  f32_round_of_multiple 0 255 (by norm_num) (by norm_num) (by norm_num)

theorem f32_round_neg_one : f32_round (-1) = -1 :=
  f32_round_of_multiple 0 (-1) (by norm_num) (by norm_num) (by norm_num)

theorem hsv_product_f32_zero : hsv_product_f32 0 0 = 0 := by
  simp [hsv_product_f32, f32_round_zero]

theorem hsv_product_f32_one : hsv_product_f32 1 0 = 255 := by
  simp [hsv_product_f32, f32_round_one, f32_round_255]

/-- The binary32 factor of hue `0` is `0`. -/
theorem hsv_factor_f32_0 : hsv_factor_f32 0 = 0 := by
  have f : fmodf 0 2 = 0 := by norm_num [fmodf, truncQ]
  have a : fabsf (-1) = 1 := by norm_num [fabsf]
  unfold hsv_factor_f32
  rw [zero_div, f32_round_zero, f, zero_sub, f32_round_neg_one, a, sub_self, f32_round_zero]

/-- The binary32 factor of hue `80`: `80 / 60` is rounded to
`11184811 / 2^23`, and the factor is `5592405 / 2^23`, just below `2/3`. -/
theorem hsv_factor_f32_80 : hsv_factor_f32 80 = 5592405 / 8388608 := by
  have q : f32_round (80 / 60) = 11184811 / 8388608 := by
    rw [f32_round_eval 0 11184811 (by norm_num) (by norm_num [abs_div])
      (by norm_num [abs_div]) (by norm_num [abs_lt])]
    norm_num
  have f : fmodf (11184811 / 8388608) 2 = 11184811 / 8388608 := by
    norm_num [fmodf, truncQ]
  have t1 : f32_round (11184811 / 8388608 - 1) = 2796203 / 8388608 :=
    f32_round_of_multiple (-23) 2796203 (by norm_num) (by norm_num) (by norm_num [abs_div])
      |>.trans (by norm_num)
  have a : fabsf (2796203 / 8388608) = 2796203 / 8388608 := by norm_num [fabsf]
  have t : f32_round (1 - 2796203 / 8388608) = 5592405 / 8388608 :=
    f32_round_of_multiple (-23) 5592405 (by norm_num) (by norm_num) (by norm_num [abs_div])
      |>.trans (by norm_num)
  unfold hsv_factor_f32
  rw [q, f, t1, a, t]

/-- The binary32 factor of hue `200`: `200 / 60` is rounded to
`13981013 / 2^22`, and the factor is `2796203 / 2^22`, just above `2/3`. -/
theorem hsv_factor_f32_200 : hsv_factor_f32 200 = 2796203 / 4194304 := by
  have q : f32_round (200 / 60) = 13981013 / 4194304 := by
    rw [f32_round_eval 1 13981013 (by norm_num) (by norm_num [abs_div])
      (by norm_num [abs_div]) (by norm_num [abs_lt])]
    norm_num
  have f : fmodf (13981013 / 4194304) 2 = 5592405 / 4194304 := by
    norm_num [fmodf, truncQ]
  have t1 : f32_round (5592405 / 4194304 - 1) = 1398101 / 4194304 :=
    f32_round_of_multiple (-22) 1398101 (by norm_num) (by norm_num) (by norm_num [abs_div])
      |>.trans (by norm_num)
  have a : fabsf (1398101 / 4194304) = 1398101 / 4194304 := by norm_num [fabsf]
  have t : f32_round (1 - 1398101 / 4194304) = 2796203 / 4194304 :=
    f32_round_of_multiple (-22) 2796203 (by norm_num) (by norm_num) (by norm_num [abs_div])
      |>.trans (by norm_num)
  unfold hsv_factor_f32
  rw [q, f, t1, a, t]

theorem hsv_c_f32_one_one : hsv_c_f32 1 1 = 1 := by
  simp [hsv_c_f32, f32_round_one]

theorem hsv_m_f32_one_one : hsv_m_f32 1 1 = 0 := by
  simp [hsv_m_f32, hsv_c_f32_one_one, f32_round_zero]

/-- At `h = 80`, `s = 1`, `v = 1` the binary32 products are
`(11141119 / 2^16, 255, 0)`; the first is just below `170`. -/
theorem hsv_scaled_f32_80 : hsv_scaled_f32 80 1 1 = (11141119 / 65536, 255, 0) := by
  have x : hsv_x_f32 80 1 1 = 5592405 / 8388608 := by
    unfold hsv_x_f32
    rw [hsv_c_f32_one_one, hsv_factor_f32_80, one_mul]
    exact f32_round_of_multiple (-23) 5592405 (by norm_num) (by norm_num)
      (by norm_num [abs_div])
  have sx : f32_round (5592405 / 8388608 + 0) = 5592405 / 8388608 := by
    rw [add_zero]
    exact f32_round_of_multiple (-23) 5592405 (by norm_num) (by norm_num)
      (by norm_num [abs_div])
  have px : f32_round (5592405 / 8388608 * 255) = 11141119 / 65536 := by
    rw [f32_round_eval 7 11141119 (by norm_num) (by norm_num [abs_div])
      (by norm_num [abs_div]) (by norm_num [abs_lt])]
    norm_num
  have hsec : hsv_sector 80 (1 : ℚ) (5592405 / 8388608) = (5592405 / 8388608, 1, 0) := by
    norm_num [hsv_sector]
  unfold hsv_scaled_f32
  rw [hsv_c_f32_one_one, x, hsv_m_f32_one_one, hsec]
  simp only [hsv_product_f32_zero, hsv_product_f32_one]
  simp only [hsv_product_f32, sx, px]

/-- At `h = 200`, `s = 1`, `v = 1` the binary32 products are
`(0, 11141121 / 2^16, 255)`; the second is just above `170`. -/
theorem hsv_scaled_f32_200 : hsv_scaled_f32 200 1 1 = (0, 11141121 / 65536, 255) := by
  have x : hsv_x_f32 200 1 1 = 2796203 / 4194304 := by
    unfold hsv_x_f32
    rw [hsv_c_f32_one_one, hsv_factor_f32_200, one_mul]
    exact f32_round_of_multiple (-22) 2796203 (by norm_num) (by norm_num)
      (by norm_num [abs_div])
  have sx : f32_round (2796203 / 4194304 + 0) = 2796203 / 4194304 := by
    rw [add_zero]
    exact f32_round_of_multiple (-22) 2796203 (by norm_num) (by norm_num)
      (by norm_num [abs_div])
  have px : f32_round (2796203 / 4194304 * 255) = 11141121 / 65536 := by
    rw [f32_round_eval 7 11141121 (by norm_num) (by norm_num [abs_div])
      (by norm_num [abs_div]) (by norm_num [abs_lt])]
    norm_num
  have hsec : hsv_sector 200 (1 : ℚ) (2796203 / 4194304) = (0, 2796203 / 4194304, 1) := by
    norm_num [hsv_sector]
  unfold hsv_scaled_f32
  rw [hsv_c_f32_one_one, x, hsv_m_f32_one_one, hsec]
  simp only [hsv_product_f32_zero, hsv_product_f32_one]
  simp only [hsv_product_f32, sx, px]

/-- At `h = 0`, `s = 1` and `v = 0.3f = 5033165 / 2^24` the binary32 products are
`(76.5, 0, 0)`; the exact first product is `76.50000304...`. -/
theorem hsv_scaled_f32_dim_red :
    hsv_scaled_f32 0 1 (5033165 / 16777216) = (153 / 2, 0, 0) := by
  have v : f32_round (5033165 / 16777216) = 5033165 / 16777216 :=
    f32_round_of_multiple (-24) 5033165 (by norm_num) (by norm_num) (by norm_num [abs_div])
  have c : hsv_c_f32 1 (5033165 / 16777216) = 5033165 / 16777216 := by
    unfold hsv_c_f32; rw [mul_one, v]
  have m : hsv_m_f32 1 (5033165 / 16777216) = 0 := by
    unfold hsv_m_f32; rw [c, sub_self, f32_round_zero]
  have x : hsv_x_f32 0 1 (5033165 / 16777216) = 0 := by
    unfold hsv_x_f32; rw [hsv_factor_f32_0, mul_zero, f32_round_zero]
  have pc : f32_round (5033165 / 16777216 * 255) = 153 / 2 := by
    rw [f32_round_eval 6 10027008 (by norm_num) (by norm_num [abs_div])
      (by norm_num [abs_div]) (by norm_num [abs_lt])]
    norm_num
  have hsec : hsv_sector 0 (5033165 / 16777216 : ℚ) 0 = (5033165 / 16777216, 0, 0) := by
    norm_num [hsv_sector]
  unfold hsv_scaled_f32
  rw [c, x, m, hsec]
  simp only [hsv_product_f32_zero]
  simp only [hsv_product_f32, add_zero, v, pc]

/-- At `h = 0`, `s = 0.2f = 13421773 / 2^26` and `v = 1` the binary32 products
are `(255, 204, 204)`: `m = 1 - s` is rounded up to `0.8f`, and `0.8f * 255` is
rounded to `204`, while the exact `(v - v*s) * 255` is `203.99999924...`. -/
theorem hsv_scaled_f32_pale_red :
    hsv_scaled_f32 0 (13421773 / 67108864) 1 = (255, 204, 204) := by
  have c : hsv_c_f32 (13421773 / 67108864) 1 = 13421773 / 67108864 := by
    unfold hsv_c_f32
    rw [one_mul]
    exact f32_round_of_multiple (-26) 13421773 (by norm_num) (by norm_num)
      (by norm_num [abs_div])
  have m : hsv_m_f32 (13421773 / 67108864) 1 = 13421773 / 16777216 := by
    unfold hsv_m_f32
    rw [c, f32_round_eval (-1) 13421773 (by norm_num) (by norm_num [abs_div])
      (by norm_num [abs_div]) (by norm_num [abs_lt])]
    norm_num
  have x : hsv_x_f32 0 (13421773 / 67108864) 1 = 0 := by
    unfold hsv_x_f32; rw [hsv_factor_f32_0, mul_zero, f32_round_zero]
  have sc : f32_round (13421773 / 67108864 + 13421773 / 16777216) = 1 := by
    rw [f32_round_eval 0 8388608 (by norm_num) (by norm_num [abs_div])
      (by norm_num [abs_div]) (by norm_num [abs_lt])]
    norm_num
  have sm : f32_round (0 + 13421773 / 16777216) = 13421773 / 16777216 := by
    rw [zero_add]
    exact f32_round_of_multiple (-24) 13421773 (by norm_num) (by norm_num)
      (by norm_num [abs_div])
  have pm : f32_round (13421773 / 16777216 * 255) = 204 := by
    rw [f32_round_eval 7 13369344 (by norm_num) (by norm_num [abs_div])
      (by norm_num [abs_div]) (by norm_num [abs_lt])]
    norm_num
  have hsec : hsv_sector 0 (13421773 / 67108864 : ℚ) 0 = (13421773 / 67108864, 0, 0) := by
    norm_num [hsv_sector]
  unfold hsv_scaled_f32
  rw [c, x, m, hsec]
  simp only [hsv_product_f32, sc, sm, pm, one_mul, f32_round_255]

/-- At `h = 0`, `s = 0.35f = 11744051 / 2^25` and `v = 0.2f = 13421773 / 2^26`
the binary32 products are `(50.99998..., 33.15000..., 33.15000...)`: `m = v - c`
and the sum `c + m` are both ties, rounded to even, and the sum comes out one
unit in the last place below `v`. -/
theorem hsv_scaled_f32_dark_red :
    hsv_scaled_f32 0 (11744051 / 33554432) (13421773 / 67108864) =
      (13369343 / 262144, 8690073 / 262144, 8690073 / 262144) := by
  have c : hsv_c_f32 (11744051 / 33554432) (13421773 / 67108864) = 9395241 / 134217728 := by
    unfold hsv_c_f32
    rw [f32_round_eval (-4) 9395241 (by norm_num) (by norm_num [abs_div])
      (by norm_num [abs_div]) (by norm_num [abs_lt])]
    norm_num
  have m : hsv_m_f32 (11744051 / 33554432) (13421773 / 67108864) = 1090519 / 8388608 := by
    unfold hsv_m_f32
    rw [c, f32_round_eval_tie (-3) 8724152 (by norm_num) (by norm_num [abs_div])
      (by norm_num [abs_div]) (by norm_num) (by norm_num)]
    norm_num
  have x : hsv_x_f32 0 (11744051 / 33554432) (13421773 / 67108864) = 0 := by
    unfold hsv_x_f32; rw [hsv_factor_f32_0, mul_zero, f32_round_zero]
  have sc : f32_round (9395241 / 134217728 + 1090519 / 8388608) = 3355443 / 16777216 := by
    rw [f32_round_eval_tie (-3) 13421772 (by norm_num) (by norm_num [abs_div])
      (by norm_num [abs_div]) (by norm_num) (by norm_num)]
    norm_num
  have pc : f32_round (3355443 / 16777216 * 255) = 13369343 / 262144 := by
    rw [f32_round_eval 5 13369343 (by norm_num) (by norm_num [abs_div])
      (by norm_num [abs_div]) (by norm_num [abs_lt])]
    norm_num
  have sm : f32_round (0 + 1090519 / 8388608) = 1090519 / 8388608 := by
    rw [zero_add]
    exact f32_round_of_multiple (-23) 1090519 (by norm_num) (by norm_num)
      (by norm_num [abs_div])
  have pm : f32_round (1090519 / 8388608 * 255) = 8690073 / 262144 := by
    rw [f32_round_eval 5 8690073 (by norm_num) (by norm_num [abs_div])
      (by norm_num [abs_div]) (by norm_num [abs_lt])]
    norm_num
  have hsec : hsv_sector 0 (9395241 / 134217728 : ℚ) 0 = (9395241 / 134217728, 0, 0) := by
    norm_num [hsv_sector]
  unfold hsv_scaled_f32
  rw [c, x, m, hsec]
  simp only [hsv_product_f32, sc, sm, pm, pc]

theorem to_uint8_eval {q : ℚ} (n : ℕ) (h0 : (n : ℚ) ≤ q) (h1 : q < (n : ℚ) + 1)
    (hn : n ≤ 255) : to_uint8 q = n := by
  have hq : 0 ≤ q := le_trans (by positivity) h0
  have hf : ⌊q⌋ = (n : ℤ) := by
    rw [Int.floor_eq_iff]
    exact ⟨by exact_mod_cast h0, by exact_mod_cast h1⟩
  unfold to_uint8
  rw [truncQ_of_nonneg hq, hf]
  omega

theorem hsv_to_rgb_f32_80 : hsv_to_rgb_f32 80 1 1 = ⟨169, 255, 0⟩ := by
  simp only [hsv_to_rgb_f32, hsv_scaled_f32_80]
  rw [to_uint8_eval 169 (by norm_num) (by norm_num) (by norm_num),
    to_uint8_eval 255 (by norm_num) (by norm_num) (by norm_num),
    to_uint8_eval 0 (by norm_num) (by norm_num) (by norm_num)]

theorem hsv_to_rgb_f32_200 : hsv_to_rgb_f32 200 1 1 = ⟨0, 170, 255⟩ := by
  simp only [hsv_to_rgb_f32, hsv_scaled_f32_200]
  rw [to_uint8_eval 0 (by norm_num) (by norm_num) (by norm_num),
    to_uint8_eval 170 (by norm_num) (by norm_num) (by norm_num),
    to_uint8_eval 255 (by norm_num) (by norm_num) (by norm_num)]

theorem hsv_to_rgb_f32_dim_red : hsv_to_rgb_f32 0 1 (5033165 / 16777216) = ⟨76, 0, 0⟩ := by
  simp only [hsv_to_rgb_f32, hsv_scaled_f32_dim_red]
  rw [to_uint8_eval 76 (by norm_num) (by norm_num) (by norm_num),
    to_uint8_eval 0 (by norm_num) (by norm_num) (by norm_num)]

theorem hsv_to_rgb_f32_pale_red :
    hsv_to_rgb_f32 0 (13421773 / 67108864) 1 = ⟨255, 204, 204⟩ := by
  simp only [hsv_to_rgb_f32, hsv_scaled_f32_pale_red]
  rw [to_uint8_eval 255 (by norm_num) (by norm_num) (by norm_num),
    to_uint8_eval 204 (by norm_num) (by norm_num) (by norm_num)]

theorem hsv_to_rgb_f32_dark_red :
    hsv_to_rgb_f32 0 (11744051 / 33554432) (13421773 / 67108864) = ⟨50, 33, 33⟩ := by
  simp only [hsv_to_rgb_f32, hsv_scaled_f32_dark_red]
  rw [to_uint8_eval 50 (by norm_num) (by norm_num) (by norm_num),
    to_uint8_eval 33 (by norm_num) (by norm_num) (by norm_num)]

/-! ## Binary32 colour conversion: the channels -/

/-- Each channel of the binary32 `hsv_to_rgb` is the truncation of its binary32
product, without wrapping, and lies between the floors of the exact product
minus and plus `1/1000`. -/
theorem hsv_to_rgb_f32_channels {h s v : ℚ} (hh0 : 0 ≤ h) (hh1 : h < 360) (hs0 : 0 ≤ s)
    (hs1 : s ≤ 1) (hv0 : 0 ≤ v) (hv1 : v ≤ 1) :
    (((hsv_to_rgb_f32 h s v).r : ℤ) = truncQ (hsv_scaled_f32 h s v).1 ∧
      ⌊(hsv_scaled h s v).1 - 1 / 1000⌋ ≤ ((hsv_to_rgb_f32 h s v).r : ℤ) ∧
      ((hsv_to_rgb_f32 h s v).r : ℤ) ≤ ⌊(hsv_scaled h s v).1 + 1 / 1000⌋) ∧
    (((hsv_to_rgb_f32 h s v).g : ℤ) = truncQ (hsv_scaled_f32 h s v).2.1 ∧
      ⌊(hsv_scaled h s v).2.1 - 1 / 1000⌋ ≤ ((hsv_to_rgb_f32 h s v).g : ℤ) ∧
      ((hsv_to_rgb_f32 h s v).g : ℤ) ≤ ⌊(hsv_scaled h s v).2.1 + 1 / 1000⌋) ∧
    (((hsv_to_rgb_f32 h s v).b : ℤ) = truncQ (hsv_scaled_f32 h s v).2.2 ∧
      ⌊(hsv_scaled h s v).2.2 - 1 / 1000⌋ ≤ ((hsv_to_rgb_f32 h s v).b : ℤ) ∧
      ((hsv_to_rgb_f32 h s v).b : ℤ) ≤ ⌊(hsv_scaled h s v).2.2 + 1 / 1000⌋) := by
  obtain ⟨e1, e2, e3⟩ := hsv_scaled_f32_error hh0 hh1 hs0 hs1 hv0 hv1
  obtain ⟨⟨r0, r1⟩, ⟨g0, g1⟩, ⟨b0, b1⟩⟩ := hsv_scaled_range hh0 hs0 hs1 hv0
  have hv255 : v * 255 ≤ 255 := by linarith
  have one : ∀ {P E : ℚ}, |P - E| ≤ 1 / 1000 → 0 ≤ E → E ≤ v * 255 →
      ((to_uint8 P : ℕ) : ℤ) = truncQ P ∧ ⌊E - 1 / 1000⌋ ≤ ((to_uint8 P : ℕ) : ℤ) ∧
        ((to_uint8 P : ℕ) : ℤ) ≤ ⌊E + 1 / 1000⌋ := by
    intro P E hPE hE0 hE1
    obtain ⟨h1, h2⟩ := abs_le.mp hPE
    have hu := (to_uint8_of_near_range (q := P) (by linarith) (by linarith)).1
    have hn := truncQ_near hE0 hPE
    rw [hu]
    exact ⟨rfl, hn.1, hn.2⟩
  exact ⟨one e1 r0 r1, one e2 g0 g1, one e3 b0 b1⟩

/-- C4 as stated fails on the binary32 code: at `h = 80`, `s = 1`, `v = 1` the
reference value of the red channel is exactly `170`, its rounding is `170`, and
the code returns `169`; at `h = 0`, `s = 1`, `v = 0.3f` the reference value is
`76.50000304...`, its rounding is `77`, and the code returns `76`. -/
theorem hsv_to_rgb_f32_not_rounded :
    (hsv_to_rgb_f32 80 1 1).toInts = (169, 255, 0) ∧
    (hsv_reference_products 80 1 1).1 = 170 ∧
    hsv_to_rgb_spec 80 1 1 = (170, 255, 0) ∧
    (hsv_to_rgb_f32 80 1 1).toInts ≠ hsv_to_rgb_spec 80 1 1 ∧
    f32_round (3 / 10) = 5033165 / 16777216 ∧
    (hsv_to_rgb_f32 0 1 (5033165 / 16777216)).toInts = (76, 0, 0) ∧
    hsv_to_rgb_spec 0 1 (5033165 / 16777216) = (77, 0, 0) := by
  have s1 : hsv_to_rgb_spec 80 1 1 = (170, 255, 0) := by
    norm_num [hsv_to_rgb_spec, hsv_reference, spec_sector_perm, spec_mod, round_eq, abs_div]
  have s2 : hsv_to_rgb_spec 0 1 (5033165 / 16777216) = (77, 0, 0) := by
    norm_num [hsv_to_rgb_spec, hsv_reference, spec_sector_perm, spec_mod, round_eq]
  have v : f32_round (3 / 10) = 5033165 / 16777216 := by
    rw [f32_round_eval (-2) 10066330 (by norm_num) (by norm_num [abs_div])
      (by norm_num [abs_div]) (by norm_num [abs_lt])]
    norm_num
  refine ⟨by rw [hsv_to_rgb_f32_80]; rfl, ?_, s1, ?_, v, by rw [hsv_to_rgb_f32_dim_red]; rfl, s2⟩
  · norm_num [hsv_reference_products, spec_sector_perm, spec_mod, abs_div]
  · rw [hsv_to_rgb_f32_80, s1]
    simp [RGB.toInts]

/-- C4, amended: for every hue in `[0,360)` and saturation and value in `[0,1]`,
each channel of the binary32 `hsv_to_rgb` is the truncation (not the nearest
integer) of its binary32 product, and that product is within `1/1000` of the
reference value `(component + m) * 255` of the sector decomposition; so each
channel lies between the floors of the reference value minus and plus
`1/1000`. -/
theorem hsv_to_rgb_f32_truncates_near_reference (h s v : ℚ) (hh0 : 0 ≤ h) (hh1 : h < 360)
    (hs0 : 0 ≤ s) (hs1 : s ≤ 1) (hv0 : 0 ≤ v) (hv1 : v ≤ 1) :
    (hsv_to_rgb_f32 h s v).toInts =
      (truncQ (hsv_scaled_f32 h s v).1, truncQ (hsv_scaled_f32 h s v).2.1,
        truncQ (hsv_scaled_f32 h s v).2.2) ∧
    (|(hsv_scaled_f32 h s v).1 - (hsv_reference_products h s v).1| ≤ 1 / 1000 ∧
     |(hsv_scaled_f32 h s v).2.1 - (hsv_reference_products h s v).2.1| ≤ 1 / 1000 ∧
     |(hsv_scaled_f32 h s v).2.2 - (hsv_reference_products h s v).2.2| ≤ 1 / 1000) ∧
    (⌊(hsv_reference_products h s v).1 - 1 / 1000⌋ ≤ ((hsv_to_rgb_f32 h s v).r : ℤ) ∧
      ((hsv_to_rgb_f32 h s v).r : ℤ) ≤ ⌊(hsv_reference_products h s v).1 + 1 / 1000⌋) ∧
    (⌊(hsv_reference_products h s v).2.1 - 1 / 1000⌋ ≤ ((hsv_to_rgb_f32 h s v).g : ℤ) ∧
      ((hsv_to_rgb_f32 h s v).g : ℤ) ≤ ⌊(hsv_reference_products h s v).2.1 + 1 / 1000⌋) ∧
    (⌊(hsv_reference_products h s v).2.2 - 1 / 1000⌋ ≤ ((hsv_to_rgb_f32 h s v).b : ℤ) ∧
      ((hsv_to_rgb_f32 h s v).b : ℤ) ≤ ⌊(hsv_reference_products h s v).2.2 + 1 / 1000⌋) := by
  obtain ⟨⟨r1, r2, r3⟩, ⟨g1, g2, g3⟩, ⟨b1, b2, b3⟩⟩ :=
    hsv_to_rgb_f32_channels hh0 hh1 hs0 hs1 hv0 hv1
  have herr := hsv_scaled_f32_error hh0 hh1 hs0 hs1 hv0 hv1
  rw [← hsv_scaled_eq_reference hh0 hh1 s v]
  refine ⟨?_, herr, ⟨r2, r3⟩, ⟨g2, g3⟩, ⟨b2, b3⟩⟩
  simp only [RGB.toInts, r1, g1, b1]

/-- Witness of the amended C4 at `h = 80`, `s = 1`, `v = 1`: the red channel is
between `floor (170 - 1/1000)` and `floor (170 + 1/1000)`. -/
theorem hsv_to_rgb_f32_truncates_near_reference_witness :
    ((0 : ℚ) ≤ 80 ∧ (80 : ℚ) < 360 ∧ (0 : ℚ) ≤ 1 ∧ (1 : ℚ) ≤ 1) ∧
    ⌊(hsv_reference_products 80 1 1).1 - 1 / 1000⌋ ≤ ((hsv_to_rgb_f32 80 1 1).r : ℤ) ∧
    ((hsv_to_rgb_f32 80 1 1).r : ℤ) ≤ ⌊(hsv_reference_products 80 1 1).1 + 1 / 1000⌋ :=
  ⟨by norm_num,
   (hsv_to_rgb_f32_truncates_near_reference 80 1 1 (by norm_num) (by norm_num) (by norm_num)
      (by norm_num) (by norm_num) (by norm_num)).2.2.1⟩

/-- In exact arithmetic the three products are `A = v * 255`, some `X` and
`Z = (v - v*s) * 255` in the order of the sector, with `Z ≤ X ≤ A`. -/
theorem hsv_scaled_perm {h s v : ℚ} (hh0 : 0 ≤ h) (hs0 : 0 ≤ s) (hv0 : 0 ≤ v) :
    ∃ X : ℚ, (v - v * s) * 255 ≤ X ∧ X ≤ v * 255 ∧
      (hsv_scaled h s v = (v * 255, X, (v - v * s) * 255) ∨
       hsv_scaled h s v = (X, v * 255, (v - v * s) * 255) ∨
       hsv_scaled h s v = ((v - v * s) * 255, v * 255, X) ∨
       hsv_scaled h s v = ((v - v * s) * 255, X, v * 255) ∨
       hsv_scaled h s v = (X, (v - v * s) * 255, v * 255) ∨
       hsv_scaled h s v = (v * 255, (v - v * s) * 255, X)) := by
  obtain ⟨T0, T1⟩ := hsv_factor_range_of_nonneg (y := h / 60) (by positivity)
  have hc0 : 0 ≤ v * s := mul_nonneg hv0 hs0
  have hx0 : 0 ≤ hsv_x h (v * s) := mul_nonneg hc0 T0
  have hx1 : hsv_x h (v * s) ≤ v * s := by
    unfold hsv_x; nlinarith
  have eA : (v * s + (v - v * s)) * 255 = v * 255 := by ring
  have eZ : (0 + (v - v * s)) * 255 = (v - v * s) * 255 := by ring
  refine ⟨(hsv_x h (v * s) + (v - v * s)) * 255, by linarith, by linarith, ?_⟩
  have hsc : hsv_scaled h s v =
      (((hsv_sector h (v * s) (hsv_x h (v * s))).1 + (v - v * s)) * 255,
       ((hsv_sector h (v * s) (hsv_x h (v * s))).2.1 + (v - v * s)) * 255,
       ((hsv_sector h (v * s) (hsv_x h (v * s))).2.2 + (v - v * s)) * 255) := rfl
  rw [hsc]
  unfold hsv_sector
  split_ifs <;> simp only [eA, eZ] <;> simp

/-- C18 as stated fails on the binary32 code in both parts.  At `h = 0`,
`s = 0.35f`, `v = 0.2f` the channels are `(50, 33, 33)`, so the largest is `50`,
while `v * 255 = 51.00000076...` has truncation `51`.  At `h = 0`, `s = 0.2f`,
`v = 1` the channels are `(255, 204, 204)`, so the smallest is `204`, while
`(v - v*s) * 255 = 203.99999924...` has truncation `203`. -/
theorem hsv_to_rgb_f32_max_min_not_truncation :
    (f32_round (35 / 100) = 11744051 / 33554432 ∧
     f32_round (2 / 10) = 13421773 / 67108864) ∧
    (hsv_to_rgb_f32 0 (11744051 / 33554432) (13421773 / 67108864) = ⟨50, 33, 33⟩ ∧
     truncQ ((13421773 / 67108864 : ℚ) * 255) = 51 ∧
     ((max (hsv_to_rgb_f32 0 (11744051 / 33554432) (13421773 / 67108864)).r
        (max (hsv_to_rgb_f32 0 (11744051 / 33554432) (13421773 / 67108864)).g
          (hsv_to_rgb_f32 0 (11744051 / 33554432) (13421773 / 67108864)).b) : ℕ) : ℤ) ≠
       truncQ ((13421773 / 67108864 : ℚ) * 255)) ∧
    (hsv_to_rgb_f32 0 (13421773 / 67108864) 1 = ⟨255, 204, 204⟩ ∧
     truncQ (((1 : ℚ) - 1 * (13421773 / 67108864)) * 255) = 203 ∧
     ((min (hsv_to_rgb_f32 0 (13421773 / 67108864) 1).r
        (min (hsv_to_rgb_f32 0 (13421773 / 67108864) 1).g
          (hsv_to_rgb_f32 0 (13421773 / 67108864) 1).b) : ℕ) : ℤ) ≠
       truncQ (((1 : ℚ) - 1 * (13421773 / 67108864)) * 255)) := by
  have s35 : f32_round (35 / 100) = 11744051 / 33554432 := by
    rw [f32_round_eval (-2) 11744051 (by norm_num) (by norm_num [abs_div])
      (by norm_num [abs_div]) (by norm_num [abs_lt])]
    norm_num
  have s20 : f32_round (2 / 10) = 13421773 / 67108864 := by
    rw [f32_round_eval (-3) 13421773 (by norm_num) (by norm_num [abs_div])
      (by norm_num [abs_div]) (by norm_num [abs_lt])]
    norm_num
  have t1 : truncQ ((13421773 / 67108864 : ℚ) * 255) = 51 := by
    norm_num [truncQ]
  have t2 : truncQ (((1 : ℚ) - 1 * (13421773 / 67108864)) * 255) = 203 := by
    norm_num [truncQ]
  refine ⟨⟨s35, s20⟩, ⟨hsv_to_rgb_f32_dark_red, t1, ?_⟩, ⟨hsv_to_rgb_f32_pale_red, t2, ?_⟩⟩
  · rw [t1, hsv_to_rgb_f32_dark_red]
    decide
  · rw [t2, hsv_to_rgb_f32_pale_red]
    decide

/-- C18, amended: for every hue in `[0,360)` and saturation and value in
`[0,1]`, the largest channel of the binary32 `hsv_to_rgb` differs by at most 1
from the truncation of `v * 255` and the smallest by at most 1 from the
truncation of `(v - v*s) * 255`, whatever the hue. -/
theorem hsv_to_rgb_f32_max_min (h s v : ℚ) (hh0 : 0 ≤ h) (hh1 : h < 360)
    (hs0 : 0 ≤ s) (hs1 : s ≤ 1) (hv0 : 0 ≤ v) (hv1 : v ≤ 1) :
    |((max (hsv_to_rgb_f32 h s v).r
        (max (hsv_to_rgb_f32 h s v).g (hsv_to_rgb_f32 h s v).b) : ℕ) : ℤ) -
      truncQ (v * 255)| ≤ 1 ∧
    |((min (hsv_to_rgb_f32 h s v).r
        (min (hsv_to_rgb_f32 h s v).g (hsv_to_rgb_f32 h s v).b) : ℕ) : ℤ) -
      truncQ ((v - v * s) * 255)| ≤ 1 := by
  obtain ⟨⟨_, r2, r3⟩, ⟨_, g2, g3⟩, ⟨_, b2, b3⟩⟩ :=
    hsv_to_rgb_f32_channels hh0 hh1 hs0 hs1 hv0 hv1
  obtain ⟨X, hZX, hXA, hp⟩ := hsv_scaled_perm hh0 hs0 hv0
  have hc0 : 0 ≤ v * s := mul_nonneg hv0 hs0
  have hc1 : v * s ≤ v := by nlinarith
  have hA0 : 0 ≤ v * 255 := by positivity
  have hZ0 : 0 ≤ (v - v * s) * 255 := by nlinarith
  rw [truncQ_of_nonneg hA0, truncQ_of_nonneg hZ0]
  have fl_lo : ∀ q : ℚ, ⌊q⌋ - 1 ≤ ⌊q - 1 / 1000⌋ := by
    intro q
    have : ⌊q - 1⌋ ≤ ⌊q - 1 / 1000⌋ := Int.floor_mono (by linarith)
    rw [Int.floor_sub_one] at this
    exact this
  have fl_hi : ∀ q : ℚ, ⌊q + 1 / 1000⌋ ≤ ⌊q⌋ + 1 := by
    intro q
    have : ⌊q + 1 / 1000⌋ ≤ ⌊q + 1⌋ := Int.floor_mono (by linarith)
    rw [Int.floor_add_one] at this
    exact this
  have a1 := fl_lo (v * 255)
  have a2 := fl_hi (v * 255)
  have z1 := fl_lo ((v - v * s) * 255)
  have z2 := fl_hi ((v - v * s) * 255)
  have x1 : ⌊(v - v * s) * 255 - 1 / 1000⌋ ≤ ⌊X - 1 / 1000⌋ := Int.floor_mono (by linarith)
  have x2 : ⌊X + 1 / 1000⌋ ≤ ⌊v * 255 + 1 / 1000⌋ := Int.floor_mono (by linarith)
  have za1 : ⌊(v - v * s) * 255 - 1 / 1000⌋ ≤ ⌊v * 255 - 1 / 1000⌋ :=
    Int.floor_mono (by linarith)
  have za2 : ⌊(v - v * s) * 255 + 1 / 1000⌋ ≤ ⌊v * 255 + 1 / 1000⌋ :=
    Int.floor_mono (by linarith)
  have zz : ⌊(v - v * s) * 255⌋ ≤ ⌊v * 255⌋ := Int.floor_mono (by linarith)
  generalize (hsv_to_rgb_f32 h s v).r = r at *
  generalize (hsv_to_rgb_f32 h s v).g = g at *
  generalize (hsv_to_rgb_f32 h s v).b = b at *
  rcases hp with e | e | e | e | e | e <;> rw [e] at r2 r3 g2 g3 b2 b3 <;>
    simp only at r2 r3 g2 g3 b2 b3 <;> constructor <;> rw [abs_le] <;> omega

/-- Witness of the amended C18 at `h = 0`, `s = 0.2f`, `v = 1`, where the
smallest channel is `204` and the truncation is `203`. -/
theorem hsv_to_rgb_f32_max_min_witness :
    ((0 : ℚ) ≤ 0 ∧ (0 : ℚ) < 360 ∧ (0 : ℚ) ≤ 13421773 / 67108864 ∧
      (13421773 / 67108864 : ℚ) ≤ 1 ∧ (0 : ℚ) ≤ 1 ∧ (1 : ℚ) ≤ 1) ∧
    |((min (hsv_to_rgb_f32 0 (13421773 / 67108864) 1).r
        (min (hsv_to_rgb_f32 0 (13421773 / 67108864) 1).g
          (hsv_to_rgb_f32 0 (13421773 / 67108864) 1).b) : ℕ) : ℤ) -
      truncQ ((1 - 1 * (13421773 / 67108864)) * 255)| ≤ 1 :=
  ⟨by norm_num,
   (hsv_to_rgb_f32_max_min 0 (13421773 / 67108864) 1 (by norm_num) (by norm_num)
      (by norm_num) (by norm_num) (by norm_num) (by norm_num)).2⟩

theorem hsv_scaled_rotate_120 {h : ℚ} (hh0 : 0 ≤ h) (hh1 : h < 240) (s v : ℚ) :
    hsv_scaled (h + 120) s v =
      ((hsv_scaled h s v).2.2, (hsv_scaled h s v).1, (hsv_scaled h s v).2.1) := by
  simp only [hsv_scaled, fmodf_hue_add_120 hh0]
  unfold hsv_sector
  split_ifs <;> first | rfl | (exfalso; linarith)

/-- Of the three binary32 products at hue `h + 120`, the two that do not hold
`x` are those of the rotated triple at hue `h`. -/
theorem hsv_scaled_f32_rotate_120 {h : ℚ} (hh0 : 0 ≤ h) (hh1 : h < 240) (s v : ℚ) :
    ((hsv_scaled_f32 (h + 120) s v).1 = (hsv_scaled_f32 h s v).2.2 ∧
      (hsv_scaled_f32 (h + 120) s v).2.1 = (hsv_scaled_f32 h s v).1) ∨
    ((hsv_scaled_f32 (h + 120) s v).1 = (hsv_scaled_f32 h s v).2.2 ∧
      (hsv_scaled_f32 (h + 120) s v).2.2 = (hsv_scaled_f32 h s v).2.1) ∨
    ((hsv_scaled_f32 (h + 120) s v).2.1 = (hsv_scaled_f32 h s v).1 ∧
      (hsv_scaled_f32 (h + 120) s v).2.2 = (hsv_scaled_f32 h s v).2.1) := by
  unfold hsv_scaled_f32
  generalize hsv_c_f32 s v = c
  generalize hsv_x_f32 h s v = x
  generalize hsv_x_f32 (h + 120) s v = y
  generalize hsv_m_f32 s v = m
  have s0 : ∀ t : ℚ, t < 60 → ∀ z : ℚ, hsv_sector t c z = (c, z, 0) := by
    intro t ht z; unfold hsv_sector; rw [if_pos ht]
  have s1 : ∀ t : ℚ, 60 ≤ t → t < 120 → ∀ z : ℚ, hsv_sector t c z = (z, c, 0) := by
    intro t h1 h2 z; unfold hsv_sector
    rw [if_neg (by linarith), if_pos h2]
  have s2 : ∀ t : ℚ, 120 ≤ t → t < 180 → ∀ z : ℚ, hsv_sector t c z = (0, c, z) := by
    intro t h1 h2 z; unfold hsv_sector
    rw [if_neg (by linarith), if_neg (by linarith), if_pos h2]
  have s3 : ∀ t : ℚ, 180 ≤ t → t < 240 → ∀ z : ℚ, hsv_sector t c z = (0, z, c) := by
    intro t h1 h2 z; unfold hsv_sector
    rw [if_neg (by linarith), if_neg (by linarith), if_neg (by linarith), if_pos h2]
  have s4 : ∀ t : ℚ, 240 ≤ t → t < 300 → ∀ z : ℚ, hsv_sector t c z = (z, 0, c) := by
    intro t h1 h2 z; unfold hsv_sector
    rw [if_neg (by linarith), if_neg (by linarith), if_neg (by linarith),
      if_neg (by linarith), if_pos h2]
  have s5 : ∀ t : ℚ, 300 ≤ t → ∀ z : ℚ, hsv_sector t c z = (c, 0, z) := by
    intro t h1 z; unfold hsv_sector
    rw [if_neg (by linarith), if_neg (by linarith), if_neg (by linarith),
      if_neg (by linarith), if_neg (by linarith)]
  rcases lt_or_le h 60 with a | a
  · rw [s0 h a, s2 (h + 120) (by linarith) (by linarith)]
    exact Or.inl ⟨rfl, rfl⟩
  rcases lt_or_le h 120 with b | b
  · rw [s1 h a b, s3 (h + 120) (by linarith) (by linarith)]
    exact Or.inr (Or.inl ⟨rfl, rfl⟩)
  rcases lt_or_le h 180 with d | d
  · rw [s2 h b d, s4 (h + 120) (by linarith) (by linarith)]
    exact Or.inr (Or.inr ⟨rfl, rfl⟩)
  · rw [s3 h d hh1, s5 (h + 120) (by linarith)]
    exact Or.inl ⟨rfl, rfl⟩

/-- C19 as stated fails on the binary32 code: `hsv_to_rgb(80, 1, 1)` is
`(169, 255, 0)` but `hsv_to_rgb(80 + 120, 1, 1)` is `(0, 170, 255)`, not
`(0, 169, 255)`. -/
theorem hsv_to_rgb_f32_rotate_120_fails :
    hsv_to_rgb_f32 80 1 1 = ⟨169, 255, 0⟩ ∧
    hsv_to_rgb_f32 (80 + 120) 1 1 = ⟨0, 170, 255⟩ ∧
    hsv_to_rgb_f32 (80 + 120) 1 1 ≠
      ⟨(hsv_to_rgb_f32 80 1 1).b, (hsv_to_rgb_f32 80 1 1).r, (hsv_to_rgb_f32 80 1 1).g⟩ := by
  have e : (80 : ℚ) + 120 = 200 := by norm_num
  rw [e, hsv_to_rgb_f32_80, hsv_to_rgb_f32_200]
  exact ⟨rfl, rfl, by decide⟩

/-- C19, amended: rotating the hue by 120 degrees rotates the channels up to one
unit in one channel: for every hue in `[0,240)` and saturation and value in
`[0,1]`, if the binary32 `hsv_to_rgb(h, s, v)` is `(r, g, b)` then two of the
three channels of `hsv_to_rgb(h + 120, s, v)` are equal to the corresponding
channels of `(b, r, g)`, and each of the three differs from it by at most 1. -/
theorem hsv_to_rgb_f32_rotate_120 (h s v : ℚ) (hh0 : 0 ≤ h) (hh1 : h < 240)
    (hs0 : 0 ≤ s) (hs1 : s ≤ 1) (hv0 : 0 ≤ v) (hv1 : v ≤ 1) :
    (((hsv_to_rgb_f32 (h + 120) s v).r = (hsv_to_rgb_f32 h s v).b ∧
        (hsv_to_rgb_f32 (h + 120) s v).g = (hsv_to_rgb_f32 h s v).r) ∨
     ((hsv_to_rgb_f32 (h + 120) s v).r = (hsv_to_rgb_f32 h s v).b ∧
        (hsv_to_rgb_f32 (h + 120) s v).b = (hsv_to_rgb_f32 h s v).g) ∨
     ((hsv_to_rgb_f32 (h + 120) s v).g = (hsv_to_rgb_f32 h s v).r ∧
        (hsv_to_rgb_f32 (h + 120) s v).b = (hsv_to_rgb_f32 h s v).g)) ∧
    |((hsv_to_rgb_f32 (h + 120) s v).r : ℤ) - ((hsv_to_rgb_f32 h s v).b : ℤ)| ≤ 1 ∧
    |((hsv_to_rgb_f32 (h + 120) s v).g : ℤ) - ((hsv_to_rgb_f32 h s v).r : ℤ)| ≤ 1 ∧
    |((hsv_to_rgb_f32 (h + 120) s v).b : ℤ) - ((hsv_to_rgb_f32 h s v).g : ℤ)| ≤ 1 := by
  obtain ⟨⟨_, r2, r3⟩, ⟨_, g2, g3⟩, ⟨_, b2, b3⟩⟩ :=
    hsv_to_rgb_f32_channels hh0 (by linarith) hs0 hs1 hv0 hv1
  obtain ⟨⟨_, r2', r3'⟩, ⟨_, g2', g3'⟩, ⟨_, b2', b3'⟩⟩ :=
    hsv_to_rgb_f32_channels (h := h + 120) (by linarith) (by linarith) hs0 hs1 hv0 hv1
  rw [hsv_scaled_rotate_120 hh0 hh1] at r2' r3' g2' g3' b2' b3'
  simp only at r2' r3' g2' g3' b2' b3'
  have gap : ∀ q : ℚ, ⌊q + 1 / 1000⌋ ≤ ⌊q - 1 / 1000⌋ + 1 := by
    intro q
    have : ⌊q + 1 / 1000⌋ ≤ ⌊q - 1 / 1000 + 1⌋ := Int.floor_mono (by linarith)
    rw [Int.floor_add_one] at this
    exact this
  have k1 := gap (hsv_scaled h s v).1
  have k2 := gap (hsv_scaled h s v).2.1
  have k3 := gap (hsv_scaled h s v).2.2
  refine ⟨?_, ?_, ?_, ?_⟩
  · simp only [hsv_to_rgb_f32]
    rcases hsv_scaled_f32_rotate_120 hh0 hh1 s v with ⟨a, b⟩ | ⟨a, b⟩ | ⟨a, b⟩
    · exact Or.inl ⟨by rw [a], by rw [b]⟩
    · exact Or.inr (Or.inl ⟨by rw [a], by rw [b]⟩)
    · exact Or.inr (Or.inr ⟨by rw [a], by rw [b]⟩)
  all_goals rw [abs_le]; constructor <;> omega

/-- Witness of the amended C19 at `h = 80`, `s = 1`, `v = 1`, where the green
channel at hue `200` is `170` and the red channel at hue `80` is `169`. -/
theorem hsv_to_rgb_f32_rotate_120_witness :
    ((0 : ℚ) ≤ 80 ∧ (80 : ℚ) < 240 ∧ (0 : ℚ) ≤ 1 ∧ (1 : ℚ) ≤ 1) ∧
    |((hsv_to_rgb_f32 (80 + 120) 1 1).g : ℤ) - ((hsv_to_rgb_f32 80 1 1).r : ℤ)| ≤ 1 :=
  ⟨by norm_num,
   (hsv_to_rgb_f32_rotate_120 80 1 1 (by norm_num) (by norm_num) (by norm_num)
      (by norm_num) (by norm_num) (by norm_num)).2.2.1⟩

/-! ## The rainbow hues in binary32 -/

/-- The binary32 sum `i * 360 / 25 + hue_offset` of line 154 is non-negative and
within `3 / 2^15` of the exact sum. -/
theorem rainbow_sum_f32_error {i : Nat} (hi : i < NUM_LEDS) {ho : ℚ} (h0 : 0 ≤ ho)
    (h1 : ho < 360) :
    0 ≤ f32_round (f32_round (f32_round ((i : ℚ) * 360) / (NUM_LEDS : ℚ)) + ho) ∧
    |f32_round (f32_round (f32_round ((i : ℚ) * 360) / (NUM_LEDS : ℚ)) + ho) -
      ((i : ℚ) * 360 / 25 + ho)| ≤ 3 / 32768 := by
  have hn : (NUM_LEDS : ℚ) = 25 := by norm_num [NUM_LEDS]
  simp only [NUM_LEDS] at hi
  have hi0 : (0 : ℚ) ≤ (i : ℚ) := by positivity
  have hi1 : (i : ℚ) ≤ 24 := by exact_mod_cast Nat.le_of_lt_succ hi
  have p : f32_round ((i : ℚ) * 360) = (i : ℚ) * 360 :=
    f32_round_of_multiple 0 ((i : ℤ) * 360) (by norm_num) (by push_cast; ring)
      (by rw [abs_of_nonneg (by positivity)]; norm_num; linarith)
  rw [hn, p]
  have q0 : 0 ≤ (i : ℚ) * 360 / 25 := by positivity
  have q1 : (i : ℚ) * 360 / 25 ≤ 512 := by linarith
  have e1 := f32_round_error_le (q := (i : ℚ) * 360 / 25) (k := 9) (by norm_num)
    (by rw [abs_of_nonneg q0]; norm_num; exact q1)
  norm_num at e1
  obtain ⟨e1a, e1b⟩ := abs_le.mp e1
  have d0 : 0 ≤ f32_round ((i : ℚ) * 360 / 25) := f32_round_nonneg q0
  have e2 := f32_round_error_le (q := f32_round ((i : ℚ) * 360 / 25) + ho) (k := 10)
    (by norm_num) (by rw [abs_of_nonneg (by linarith)]; norm_num; linarith)
  norm_num at e2
  obtain ⟨e2a, e2b⟩ := abs_le.mp e2
  refine ⟨f32_round_nonneg (by linarith), ?_⟩
  rw [abs_le]
  constructor <;> linarith

/-- The binary32 hue of pixel `i` lies in `[0,360)` and is the exact sum
`i * 360 / 25 + hue_offset` up to a multiple of 360 and an error of at most
`1/10000`. -/
theorem rainbow_hue_f32_near {i : Nat} (hi : i < NUM_LEDS) {ho : ℚ} (h0 : 0 ≤ ho)
    (h1 : ho < 360) :
    (0 ≤ rainbow_hue_f32 i ho ∧ rainbow_hue_f32 i ho < 360) ∧
    ∃ k : ℤ, |rainbow_hue_f32 i ho + 360 * (k : ℚ) - ((i : ℚ) * 360 / 25 + ho)| ≤
      1 / 10000 := by
  obtain ⟨s0, s1⟩ := rainbow_sum_f32_error hi h0 h1
  unfold rainbow_hue_f32
  rw [fmodf_360_eq s0]
  refine ⟨spec_mod_360_range _, ⟨⌊f32_round (f32_round (f32_round ((i : ℚ) * 360) /
    (NUM_LEDS : ℚ)) + ho) / 360⌋, ?_⟩⟩
  unfold spec_mod
  obtain ⟨s1a, s1b⟩ := abs_le.mp s1
  rw [abs_le]
  constructor <;> linarith

/-- For `hue_offset = 0` the binary32 hue of pixel 12 is `11324621 / 2^16`: the
quotient `4320 / 25 = 172.8` is rounded. -/
theorem rainbow_hue_f32_12 : rainbow_hue_f32 12 0 = 11324621 / 65536 := by
  have hn : (NUM_LEDS : ℚ) = 25 := by norm_num [NUM_LEDS]
  have p12 : f32_round (((12 : ℕ) : ℚ) * 360) = 4320 :=
    (f32_round_of_multiple 0 4320 (by norm_num) (by norm_num) (by norm_num)).trans
      (by norm_num)
  have q12 : f32_round (4320 / 25) = 11324621 / 65536 := by
    rw [f32_round_eval 7 11324621 (by norm_num) (by norm_num [abs_div])
      (by norm_num [abs_div]) (by norm_num [abs_lt])]
    norm_num
  have s12 : f32_round (11324621 / 65536 + 0) = 11324621 / 65536 := by
    rw [add_zero]
    exact f32_round_of_multiple (-16) 11324621 (by norm_num) (by norm_num)
      (by norm_num [abs_div])
  unfold rainbow_hue_f32
  rw [hn, p12, q12, s12]
  norm_num [fmodf, truncQ]

/-- For `hue_offset = 0` the binary32 hue of pixel 24 is `11324621 / 2^15`: the
quotient `8640 / 25 = 345.6` is rounded. -/
theorem rainbow_hue_f32_24 : rainbow_hue_f32 24 0 = 11324621 / 32768 := by
  have hn : (NUM_LEDS : ℚ) = 25 := by norm_num [NUM_LEDS]
  have p24 : f32_round (((24 : ℕ) : ℚ) * 360) = 8640 :=
    (f32_round_of_multiple 0 8640 (by norm_num) (by norm_num) (by norm_num)).trans
      (by norm_num)
  have q24 : f32_round (8640 / 25) = 11324621 / 32768 := by
    rw [f32_round_eval 8 11324621 (by norm_num) (by norm_num [abs_div])
      (by norm_num [abs_div]) (by norm_num [abs_lt])]
    norm_num
  have s24 : f32_round (11324621 / 32768 + 0) = 11324621 / 32768 := by
    rw [add_zero]
    exact f32_round_of_multiple (-15) 11324621 (by norm_num) (by norm_num)
      (by norm_num [abs_div])
  unfold rainbow_hue_f32
  rw [hn, p24, q24, s24]
  norm_num [fmodf, truncQ]

/-- C13 as stated fails on the binary32 code: for `hue_offset = 0` the hue of
pixel 12 is `11324621 / 2^16 = 172.80000305...`, not `172.8`, and that of pixel
24 is `345.60000610...`, not `345.6`. -/
theorem rainbow_hue_f32_not_exact :
    rainbow_hue_f32 12 0 = 11324621 / 65536 ∧
    rainbow_hue_f32 12 0 ≠ 864 / 5 ∧
    rainbow_hue_f32 12 0 ≠ spec_mod (((12 : ℕ) : ℚ) * 360 / 25 + 0) 360 ∧
    rainbow_hue_f32 24 0 = 11324621 / 32768 ∧
    rainbow_hue_f32 24 0 ≠ 1728 / 5 := by
  refine ⟨rainbow_hue_f32_12, ?_, ?_, rainbow_hue_f32_24, ?_⟩
  · rw [rainbow_hue_f32_12]; norm_num
  · rw [rainbow_hue_f32_12]; norm_num [spec_mod]
  · rw [rainbow_hue_f32_24]; norm_num

/-- C13, amended: in a rainbow frame with `hue_offset` in `[0,360)`, the
binary32 hue of pixel `i` lies in `[0,360)` and equals
`i*360/25 + hue_offset` up to a multiple of 360 and an error of at most
`1/10000`; the hue of pixel `i+1` is that of pixel `i` plus `360/25 = 14.4` up
to a multiple of 360 and an error of at most `2/10000`; the 25 hues are pairwise
distinct; and for `hue_offset = 0` pixel 0 has hue `0`, pixel 12 has hue
`172.80000305...` and pixel 24 has hue `345.60000610...`, within `1/10000` of
`172.8` and `345.6`. -/
theorem rainbow_hues_f32_evenly_spaced (ho : ℚ) (h0 : 0 ≤ ho) (h1 : ho < 360) :
    (∀ i, i < NUM_LEDS →
      (0 ≤ rainbow_hue_f32 i ho ∧ rainbow_hue_f32 i ho < 360) ∧
      ∃ k : ℤ, |rainbow_hue_f32 i ho + 360 * (k : ℚ) - ((i : ℚ) * 360 / 25 + ho)| ≤
        1 / 10000) ∧
    (∀ i, i + 1 < NUM_LEDS →
      ∃ k : ℤ, |rainbow_hue_f32 (i + 1) ho - rainbow_hue_f32 i ho - 72 / 5 -
        360 * (k : ℚ)| ≤ 2 / 10000) ∧
    (∀ i j, i < NUM_LEDS → j < NUM_LEDS → rainbow_hue_f32 i ho = rainbow_hue_f32 j ho →
      i = j) ∧
    rainbow_hue_f32 0 0 = 0 ∧
    (rainbow_hue_f32 12 0 = 11324621 / 65536 ∧ |rainbow_hue_f32 12 0 - 864 / 5| ≤ 1 / 10000) ∧
    (rainbow_hue_f32 24 0 = 11324621 / 32768 ∧
      |rainbow_hue_f32 24 0 - 1728 / 5| ≤ 1 / 10000) := by
  refine ⟨fun i hi => rainbow_hue_f32_near hi h0 h1, ?_, ?_, ?_, ?_, ?_⟩
  · intro i hi
    obtain ⟨_, k1, e1⟩ := rainbow_hue_f32_near (i := i) (by omega) h0 h1
    obtain ⟨_, k2, e2⟩ := rainbow_hue_f32_near hi h0 h1
    obtain ⟨e1a, e1b⟩ := abs_le.mp e1
    obtain ⟨e2a, e2b⟩ := abs_le.mp e2
    push_cast at e2a e2b
    refine ⟨k1 - k2, ?_⟩
    rw [abs_le]
    push_cast
    constructor <;> linarith
  · intro i j hi hj heq
    obtain ⟨_, k1, e1⟩ := rainbow_hue_f32_near hi h0 h1
    obtain ⟨_, k2, e2⟩ := rainbow_hue_f32_near hj h0 h1
    rw [heq] at e1
    obtain ⟨e1a, e1b⟩ := abs_le.mp e1
    obtain ⟨e2a, e2b⟩ := abs_le.mp e2
    have hd : |(((i : ℤ) - (j : ℤ) - 25 * (k1 - k2) : ℤ) : ℚ)| < 1 := by
      rw [abs_lt]
      push_cast
      constructor <;> linarith
    have hd2 : |(i : ℤ) - (j : ℤ) - 25 * (k1 - k2)| < 1 := by exact_mod_cast hd
    rw [abs_lt] at hd2
    simp only [NUM_LEDS] at hi hj
    omega
  · have hn : (NUM_LEDS : ℚ) = 25 := by norm_num [NUM_LEDS]
    unfold rainbow_hue_f32
    rw [hn]
    norm_num [f32_round_zero, fmodf, truncQ]
  · rw [rainbow_hue_f32_12]
    exact ⟨rfl, by norm_num [abs_le]⟩
  · rw [rainbow_hue_f32_24]
    exact ⟨rfl, by norm_num [abs_le]⟩

/-- Witness of the amended C13 at `hue_offset = 357`: pixels 0 and 1 have
different binary32 hues. -/
theorem rainbow_hues_f32_evenly_spaced_witness :
    ((0 : ℚ) ≤ 357 ∧ (357 : ℚ) < 360) ∧
    (0 ≤ rainbow_hue_f32 1 357 ∧ rainbow_hue_f32 1 357 < 360) ∧
    (rainbow_hue_f32 0 357 = rainbow_hue_f32 1 357 → 0 = 1) :=
  ⟨by norm_num,
   ((rainbow_hues_f32_evenly_spaced 357 (by norm_num) (by norm_num)).1 1 (by decide)).1,
   (rainbow_hues_f32_evenly_spaced 357 (by norm_num) (by norm_num)).2.2.1 0 1 (by decide)
     (by decide)⟩

/-! ## The hue advance in binary32 -/

theorem rainbow_effect_advance_f32_range {h : ℚ} (h0 : 0 ≤ h) :
    0 ≤ rainbow_effect_advance_f32 h ∧ rainbow_effect_advance_f32 h < 360 := by
  unfold rainbow_effect_advance_f32
  rw [fmodf_360_eq (f32_round_nonneg (by linarith))]
  exact spec_mod_360_range _

theorem rainbow_effect_run_f32_range (k : Nat) {h : ℚ} (h0 : 0 ≤ h) (h1 : h < 360) :
    0 ≤ rainbow_effect_run_f32 k h ∧ rainbow_effect_run_f32 k h < 360 := by
  induction k with
  | zero => exact ⟨h0, h1⟩
  | succ k ih => exact rainbow_effect_advance_f32_range ih.1

/-- On a multiple of `2^-15` in `[0,360)` the binary32 advance is the exact one,
and its result is again a multiple of `2^-15`. -/
theorem rainbow_effect_advance_f32_exact {h : ℚ} (n : ℤ) (hn : h = (n : ℚ) / 32768)
    (h0 : 0 ≤ h) (h1 : h < 360) :
    rainbow_effect_advance_f32 h = rainbow_effect_advance h ∧
    ∃ n' : ℤ, rainbow_effect_advance h = (n' : ℚ) / 32768 := by
  have hr : f32_round (h + 3) = h + 3 :=
    f32_round_of_multiple (-15) (n + 98304) (by norm_num)
      (by rw [hn]; push_cast; norm_num; ring)
      (by rw [abs_of_nonneg (by linarith)]; norm_num; linarith)
  constructor
  · unfold rainbow_effect_advance_f32 rainbow_effect_advance
    rw [hr]
  · refine ⟨n + 98304 - 11796480 * truncQ ((h + 3) / 360), ?_⟩
    unfold rainbow_effect_advance fmodf
    rw [hn]
    push_cast
    ring

theorem rainbow_effect_run_f32_exact (k : Nat) {h : ℚ} (n : ℤ) (hn : h = (n : ℚ) / 32768)
    (h0 : 0 ≤ h) (h1 : h < 360) :
    rainbow_effect_run_f32 k h = rainbow_effect_run k h ∧
    ∃ n' : ℤ, rainbow_effect_run k h = (n' : ℚ) / 32768 := by
  induction k with
  | zero => exact ⟨rfl, n, hn⟩
  | succ k ih =>
    obtain ⟨e, n', hn'⟩ := ih
    have hr := rainbow_effect_run_f32_range k h0 h1
    rw [e] at hr
    obtain ⟨a, b⟩ := rainbow_effect_advance_f32_exact n' hn' hr.1 hr.2
    exact ⟨by rw [rainbow_effect_run_f32, e, a, rainbow_effect_run], by
      rw [rainbow_effect_run]; exact b⟩

theorem rainbow_effect_run_f32_succ (k : Nat) (h : ℚ) :
    rainbow_effect_run_f32 (k + 1) h =
      rainbow_effect_run_f32 k (rainbow_effect_advance_f32 h) := by
  induction k with
  | zero => rfl
  | succ k ih => rw [rainbow_effect_run_f32, ih, rainbow_effect_run_f32]

/-- C12 as stated fails on the binary32 code: from the binary32 value
`hue_offset = 1 + 2^-23` the first sum `hue_offset + 3` is rounded to `4`, and
after 120 advances the value is `1`, not the starting value. -/
theorem rainbow_hue_offset_f32_no_return :
    f32_round (8388609 / 8388608) = 8388609 / 8388608 ∧
    ((0 : ℚ) ≤ 8388609 / 8388608 ∧ (8388609 / 8388608 : ℚ) < 360) ∧
    rainbow_effect_advance_f32 (8388609 / 8388608) = 4 ∧
    rainbow_effect_run_f32 120 (8388609 / 8388608) = 1 ∧
    rainbow_effect_run_f32 120 (8388609 / 8388608) ≠ 8388609 / 8388608 := by
  have r : f32_round (8388609 / 8388608) = 8388609 / 8388608 :=
    f32_round_of_multiple (-23) 8388609 (by norm_num) (by norm_num) (by norm_num [abs_div])
  have a : rainbow_effect_advance_f32 (8388609 / 8388608) = 4 := by
    have s : f32_round (8388609 / 8388608 + 3) = 4 := by
      rw [f32_round_eval 2 8388608 (by norm_num) (by norm_num [abs_div])
        (by norm_num [abs_div]) (by norm_num [abs_lt])]
      norm_num
    unfold rainbow_effect_advance_f32
    rw [s]
    norm_num [fmodf, truncQ]
  have e : rainbow_effect_run_f32 120 (8388609 / 8388608) = 1 := by
    rw [rainbow_effect_run_f32_succ, a,
      (rainbow_effect_run_f32_exact 119 131072 (by norm_num) (by norm_num) (by norm_num)).1,
      rainbow_effect_run_eq 119 (by norm_num) (by norm_num)]
    norm_num [spec_mod]
  refine ⟨r, by norm_num, a, e, ?_⟩
  rw [e]
  norm_num

/-- C12, amended: for every starting `hue_offset` in `[0,360)` the binary32
advance `hue_offset := fmodf(hue_offset + 3, 360)` keeps the value in `[0,360)`;
when the starting value is a multiple of `2^-15` (every integer is, and so is
every value reached from the initial value `0`), the value after 120 advances
is the starting value, and after `k` advances with `0 < k < 120` it is not. -/
theorem rainbow_hue_offset_f32_period (h0 : ℚ) (hh0 : 0 ≤ h0) (hh1 : h0 < 360) :
    (∀ k, 0 ≤ rainbow_effect_run_f32 k h0 ∧ rainbow_effect_run_f32 k h0 < 360) ∧
    ((∃ n : ℤ, h0 = (n : ℚ) / 32768) →
      rainbow_effect_run_f32 120 h0 = h0 ∧
      ∀ k, 0 < k → k < 120 → rainbow_effect_run_f32 k h0 ≠ h0) ∧
    rainbow_effect_run_f32 120 0 = 0 := by
  have period : ∀ h : ℚ, 0 ≤ h → h < 360 → (∃ n : ℤ, h = (n : ℚ) / 32768) →
      rainbow_effect_run_f32 120 h = h ∧
      ∀ k, 0 < k → k < 120 → rainbow_effect_run_f32 k h ≠ h := by
    intro h ha hb ⟨n, hn⟩
    constructor
    · rw [(rainbow_effect_run_f32_exact 120 n hn ha hb).1, rainbow_effect_run_eq 120 ha hb]
      have e : h + 3 * ((120 : ℕ) : ℚ) = 360 + h := by norm_num; ring
      rw [e, ← spec_mod_360_add 360 h]
      have z : spec_mod 360 360 = 0 := by norm_num [spec_mod]
      rw [z, zero_add, spec_mod_360_of_range ha hb]
    · intro k hk0 hk1 heq
      rw [(rainbow_effect_run_f32_exact k n hn ha hb).1, rainbow_effect_run_eq k ha hb] at heq
      have heq2 : spec_mod (h + 3 * (k : ℚ)) 360 = spec_mod h 360 := by
        rw [heq, spec_mod_360_of_range ha hb]
      obtain ⟨m, hm⟩ := spec_mod_360_eq heq2
      have hz : (3 * (k : ℤ) : ℚ) = ((360 * m : ℤ) : ℚ) := by
        push_cast; linarith
      have hz2 : 3 * (k : ℤ) = 360 * m := by exact_mod_cast hz
      omega
  exact ⟨fun k => rainbow_effect_run_f32_range k hh0 hh1, period h0 hh0 hh1,
    (period 0 le_rfl (by norm_num) ⟨0, by norm_num⟩).1⟩

/-- Witness of the amended C12 from `hue_offset = 357`: one advance wraps to
`0`, and 120 advances return to `357`. -/
theorem rainbow_hue_offset_f32_period_witness :
    ((0 : ℚ) ≤ 357 ∧ (357 : ℚ) < 360) ∧
    (∃ n : ℤ, (357 : ℚ) = (n : ℚ) / 32768) ∧
    rainbow_effect_run_f32 120 357 = 357 ∧ rainbow_effect_run_f32 1 357 ≠ 357 :=
  ⟨by norm_num, ⟨11698176, by norm_num⟩,
   ((rainbow_hue_offset_f32_period 357 (by norm_num) (by norm_num)).2.1
      ⟨11698176, by norm_num⟩).1,
   ((rainbow_hue_offset_f32_period 357 (by norm_num) (by norm_num)).2.1
      ⟨11698176, by norm_num⟩).2 1 (by norm_num) (by norm_num)⟩

end Blink
